import Mathlib

/-!
Verification of the Rabbit protocol engine (rabbitengine, Rust sources)
against its natural-language specification.

The Rust code is shallowly embedded: Rust `String` / `&str` values are
modelled as `List Char` (`Str`), `HashMap` as association lists with
replace-on-insert, `Instant` / `Utc::now().timestamp()` as `Nat`
parameters supplied by the caller, and fallible functions return
`Option` / `Except`.  Machine integers are modelled as `Nat`; where a
parse routine enforces a width (`parse::<u16>()` and friends) the bound
`2 ^ w` is checked explicitly.
-/

set_option maxHeartbeats 1000000

/-- Rust strings are modelled as lists of characters. -/
abbrev Str := List Char

/-- Shorthand turning a Lean string literal into the `Str` model. -/
def str (s : String) : Str := s.data

/-- The CRLF separator used by the frame codec (`"\r\n"`). -/
def crlf : Str := ['\r', '\n']

/-- Unicode `White_Space` code points, as used by Rust `char::is_whitespace`
(`str::trim` and `str::split_whitespace` build on it). -/
def isWsChar (c : Char) : Bool :=
  c.toNat = 0x09 || c.toNat = 0x0A || c.toNat = 0x0B || c.toNat = 0x0C ||
  c.toNat = 0x0D || c.toNat = 0x20 || c.toNat = 0x85 || c.toNat = 0xA0 ||
  c.toNat = 0x1680 || (0x2000 ≤ c.toNat && c.toNat ≤ 0x200A) ||
  c.toNat = 0x2028 || c.toNat = 0x2029 || c.toNat = 0x202F ||
  c.toNat = 0x205F || c.toNat = 0x3000

/-- Helper for `splitCRLF`: prepend a character to the first piece. -/
def consHead (c : Char) : List Str → List Str
  | [] => [[c]]
  | l :: ls => (c :: l) :: ls

/-- Rust `str::split("\r\n")`: split on every occurrence of CRLF, keeping
empty pieces (splitting the empty string yields one empty piece). -/
def splitCRLF : Str → List Str
  | [] => [[]]
  | c :: rest =>
    if c = '\r' ∧ rest.head? = some '\n' then [] :: splitCRLF rest.tail
    else consHead c (splitCRLF rest)
termination_by s => s.length
decreasing_by
  · simp [List.length_tail]; omega
  · simp

/-- Rust `Vec::join("\r\n")`. -/
def joinCRLF (ls : List Str) : Str := List.intercalate crlf ls

/-- True when the string contains no CRLF occurrence. -/
def noCRLF : Str → Bool
  | [] => true
  | c :: rest =>
    if c = '\r' ∧ rest.head? = some '\n' then false else noCRLF rest

/-- Length bound for `List.dropWhile`, used for termination below. -/
theorem dropWhile_len_le {α : Type} (p : α → Bool) (l : List α) :
    (l.dropWhile p).length ≤ l.length := by
  induction l with
  | nil => simp
  | cons c t ih =>
    rw [List.dropWhile_cons]
    split <;> simp <;> omega

/-- Rust `str::split_whitespace`: tokens separated by runs of whitespace,
with no empty tokens. -/
def splitWs (s : Str) : List Str :=
  match h : s.dropWhile isWsChar with
  | [] => []
  | c :: rest =>
    (c :: rest.takeWhile (fun x => !isWsChar x)) ::
      splitWs (rest.dropWhile (fun x => !isWsChar x))
termination_by s.length
decreasing_by
  have h1 : (s.dropWhile isWsChar).length ≤ s.length := dropWhile_len_le isWsChar s
  have h2 : (rest.dropWhile (fun x => !isWsChar x)).length ≤ rest.length :=
    dropWhile_len_le _ rest
  rw [h] at h1
  simp at h1
  omega

/-- Rust `str::trim`. -/
def trimStr (s : Str) : Str :=
  ((s.dropWhile isWsChar).reverse.dropWhile isWsChar).reverse

/-- Rust `str::split_once(':')`: split at the first colon, if any. -/
def splitOnceColon : Str → Option (Str × Str)
  | [] => none
  | c :: rest =>
    if c = ':' then some ([], rest)
    else match splitOnceColon rest with
      | none => none
      | some (a, b) => some (c :: a, b)

/-- Association-list lookup (model of `HashMap::get`). -/
def lookupA {κ α : Type} [DecidableEq κ] (k : κ) : List (κ × α) → Option α
  | [] => none
  | (k2, v) :: t => if k2 = k then some v else lookupA k t

/-- Association-list insert with replacement (model of `HashMap::insert`). -/
def insertA {κ α : Type} [DecidableEq κ] (k : κ) (v : α) : List (κ × α) → List (κ × α)
  | [] => [(k, v)]
  | (k2, v2) :: t => if k2 = k then (k, v) :: t else (k2, v2) :: insertA k v t

/-- Association-list removal (model of `HashMap::remove`). -/
def removeA {κ α : Type} [DecidableEq κ] (k : κ) (m : List (κ × α)) : List (κ × α) :=
  m.filter (fun e => !(e.1 = k : Bool))

/-- First-component projection of an association list. -/
def keysA {κ α : Type} (m : List (κ × α)) : List κ := m.map Prod.fst

/-! Basic facts about the string-splitting helpers. -/

theorem consHead_cons (c : Char) (l : Str) (ls : List Str) :
    consHead c (l :: ls) = (c :: l) :: ls := rfl

theorem consHead_ne_nil (c : Char) (ls : List Str) : consHead c ls ≠ [] := by
  cases ls <;> simp [consHead]

theorem splitCRLF_nil : splitCRLF [] = [[]] := by
  rw [splitCRLF]

theorem splitCRLF_crlf_cons (rest : Str) :
    splitCRLF ('\r' :: '\n' :: rest) = [] :: splitCRLF rest := by
  rw [splitCRLF]
  simp

theorem splitCRLF_cons_of_not (c : Char) (rest : Str)
    (h : ¬(c = '\r' ∧ rest.head? = some '\n')) :
    splitCRLF (c :: rest) = consHead c (splitCRLF rest) := by
  rw [splitCRLF]
  simp only [h, if_false]

theorem splitCRLF_ne_nil (s : Str) : splitCRLF s ≠ [] := by
  cases s with
  | nil => simp [splitCRLF_nil]
  | cons c rest =>
    rw [splitCRLF]
    split
    · simp
    · exact consHead_ne_nil _ _

theorem noCRLF_cons (c : Char) (rest : Str) (h : noCRLF (c :: rest) = true) :
    ¬(c = '\r' ∧ rest.head? = some '\n') ∧ noCRLF rest = true := by
  rw [noCRLF] at h
  by_cases hc : c = '\r' ∧ rest.head? = some '\n'
  · simp [hc] at h
  · simpa [hc] using h

theorem splitCRLF_sep_append (a r : Str) (ha : noCRLF a = true) :
    splitCRLF (a ++ '\r' :: '\n' :: r) = a :: splitCRLF r := by
  induction a with
  | nil => simpa using splitCRLF_crlf_cons r
  | cons c a2 ih =>
    obtain ⟨hhead, htail⟩ := noCRLF_cons c a2 ha
    have hcond : ¬(c = '\r' ∧ (a2 ++ '\r' :: '\n' :: r).head? = some '\n') := by
      intro ⟨hc, hh⟩
      apply hhead
      refine ⟨hc, ?_⟩
      cases a2 with
      | nil => simp at hh
      | cons x t => simpa using hh
    rw [List.cons_append, splitCRLF_cons_of_not c _ hcond, ih htail, consHead_cons]

theorem joinCRLF_nil : joinCRLF [] = [] := by
  simp [joinCRLF, List.intercalate]

theorem joinCRLF_single (l : Str) : joinCRLF [l] = l := by
  simp [joinCRLF, List.intercalate]

theorem joinCRLF_cons (l l2 : Str) (ls : List Str) :
    joinCRLF (l :: l2 :: ls) = l ++ '\r' :: '\n' :: joinCRLF (l2 :: ls) := by
  simp [joinCRLF, List.intercalate, crlf]

theorem joinCRLF_cons_head (c : Char) (l : Str) (ls : List Str) :
    joinCRLF ((c :: l) :: ls) = c :: joinCRLF (l :: ls) := by
  cases ls with
  | nil => simp [joinCRLF_single]
  | cons l2 t => simp [joinCRLF_cons]

theorem join_splitCRLF (s : Str) : joinCRLF (splitCRLF s) = s := by
  generalize hn : s.length = n
  induction n using Nat.strong_induction_on generalizing s with
  | _ n ih =>
    subst hn
    cases s with
    | nil => simp [splitCRLF_nil, joinCRLF_single]
    | cons c rest =>
      by_cases hc : c = '\r' ∧ rest.head? = some '\n'
      · obtain ⟨hc1, hc2⟩ := hc
        subst hc1
        cases rest with
        | nil => simp at hc2
        | cons c2 rest2 =>
          have hc2' : c2 = '\n' := by simpa using hc2
          subst hc2'
          rw [splitCRLF_crlf_cons]
          cases h2 : splitCRLF rest2 with
          | nil => exact absurd h2 (splitCRLF_ne_nil rest2)
          | cons l ls =>
            have hrest : joinCRLF (splitCRLF rest2) = rest2 :=
              ih rest2.length (by simp only [List.length_cons]; omega) rest2 rfl
            rw [h2] at hrest
            rw [joinCRLF_cons, hrest]
            rfl
      · rw [splitCRLF_cons_of_not c rest hc]
        cases h2 : splitCRLF rest with
        | nil => exact absurd h2 (splitCRLF_ne_nil rest)
        | cons l ls =>
          rw [consHead_cons, joinCRLF_cons_head, ← h2]
          rw [ih rest.length (by simp) rest rfl]

/-! Tokens and whitespace splitting. -/

/-- A start-line token: nonempty and free of whitespace (hence of CR/LF). -/
def isToken (t : Str) : Bool := !t.isEmpty && t.all (fun c => !isWsChar c)

theorem takeWhile_all {α : Type} (p : α → Bool) (xs : List α)
    (h : ∀ x ∈ xs, p x = true) : xs.takeWhile p = xs := by
  induction xs with
  | nil => simp
  | cons c t ih =>
    have ht : List.takeWhile p t = t := ih (fun x hx => h x (by simp [hx]))
    simp [List.takeWhile_cons, h c (by simp), ht]

theorem dropWhile_all {α : Type} (p : α → Bool) (xs : List α)
    (h : ∀ x ∈ xs, p x = true) : xs.dropWhile p = [] := by
  induction xs with
  | nil => simp
  | cons c t ih =>
    have ht : List.dropWhile p t = [] := ih (fun x hx => h x (by simp [hx]))
    simp [List.dropWhile_cons, h c (by simp), ht]

theorem takeWhile_append_stop {α : Type} (p : α → Bool) (xs : List α) (y : α)
    (ys : List α) (h : ∀ x ∈ xs, p x = true) (hy : p y = false) :
    (xs ++ y :: ys).takeWhile p = xs := by
  induction xs with
  | nil => simp [List.takeWhile_cons, hy]
  | cons c t ih =>
    have ht := ih (fun x hx => h x (by simp [hx]))
    simp [List.takeWhile_cons, h c (by simp), ht]

theorem dropWhile_append_stop {α : Type} (p : α → Bool) (xs : List α) (y : α)
    (ys : List α) (h : ∀ x ∈ xs, p x = true) (hy : p y = false) :
    (xs ++ y :: ys).dropWhile p = y :: ys := by
  induction xs with
  | nil => simp [List.dropWhile_cons, hy]
  | cons c t ih =>
    have ht := ih (fun x hx => h x (by simp [hx]))
    simp [List.dropWhile_cons, h c (by simp), ht]

theorem dropWhile_no_ws (s : Str) (h : ∀ x ∈ s, isWsChar x = false) :
    s.dropWhile isWsChar = s := by
  cases s with
  | nil => simp
  | cons c t => rw [List.dropWhile_cons, h c (by simp)]; simp

theorem splitWs_of_dropWhile_nil (s : Str) (h : s.dropWhile isWsChar = []) :
    splitWs s = [] := by
  rw [splitWs.eq_def]
  split
  · rfl
  · next c rest heq => rw [h] at heq; exact absurd heq (by simp)

theorem splitWs_of_dropWhile_cons (s : Str) (c : Char) (rest : Str)
    (h : s.dropWhile isWsChar = c :: rest) :
    splitWs s = (c :: rest.takeWhile (fun x => !isWsChar x)) ::
      splitWs (rest.dropWhile (fun x => !isWsChar x)) := by
  rw [splitWs.eq_def]
  split
  · next heq => rw [h] at heq; exact absurd heq (by simp)
  · next c2 rest2 heq =>
    rw [h] at heq
    obtain ⟨h1, h2⟩ : c = c2 ∧ rest = rest2 := by
      constructor <;> [exact (List.cons.injEq _ _ _ _ ▸ heq).1;
        exact (List.cons.injEq _ _ _ _ ▸ heq).2]
    subst h1; subst h2
    rfl

theorem splitWs_nil : splitWs [] = [] :=
  splitWs_of_dropWhile_nil [] (by simp)

theorem splitWs_ws_cons (c : Char) (r : Str) (h : isWsChar c = true) :
    splitWs (c :: r) = splitWs r := by
  have hdrop : (c :: r).dropWhile isWsChar = r.dropWhile isWsChar := by
    rw [List.dropWhile_cons, h]; simp
  cases h2 : r.dropWhile isWsChar with
  | nil =>
    rw [splitWs_of_dropWhile_nil _ (hdrop.trans h2), splitWs_of_dropWhile_nil _ h2]
  | cons d rest =>
    rw [splitWs_of_dropWhile_cons _ d rest (hdrop.trans h2),
      splitWs_of_dropWhile_cons _ d rest h2]

theorem isToken_parts (t : Str) (h : isToken t = true) :
    t ≠ [] ∧ ∀ x ∈ t, isWsChar x = false := by
  simp only [isToken, Bool.and_eq_true, Bool.not_eq_true', List.all_eq_true] at h
  refine ⟨?_, h.2⟩
  intro hnil
  subst hnil
  simp at h

theorem splitWs_token (t : Str) (h : isToken t = true) : splitWs t = [t] := by
  obtain ⟨hne, hws⟩ := isToken_parts t h
  cases t with
  | nil => exact absurd rfl hne
  | cons c rest =>
    have hdrop : (c :: rest).dropWhile isWsChar = c :: rest :=
      dropWhile_no_ws _ hws
    rw [splitWs_of_dropWhile_cons _ c rest hdrop]
    have hrest : ∀ x ∈ rest, isWsChar x = false := fun x hx => hws x (by simp [hx])
    rw [takeWhile_all _ rest (by intro x hx; simp [hrest x hx]),
      dropWhile_all _ rest (by intro x hx; simp [hrest x hx]), splitWs_nil]

theorem splitWs_token_sp (t r : Str) (h : isToken t = true) :
    splitWs (t ++ ' ' :: r) = t :: splitWs r := by
  obtain ⟨hne, hws⟩ := isToken_parts t h
  cases t with
  | nil => exact absurd rfl hne
  | cons c rest =>
    have hcws : isWsChar c = false := hws c (by simp)
    have hrest : ∀ x ∈ rest, isWsChar x = false := fun x hx => hws x (by simp [hx])
    have hdrop : (c :: (rest ++ ' ' :: r)).dropWhile isWsChar
        = c :: (rest ++ ' ' :: r) := by
      rw [List.dropWhile_cons, hcws]; simp
    rw [List.cons_append, splitWs_of_dropWhile_cons _ c _ hdrop]
    rw [takeWhile_append_stop _ rest ' ' r
      (by intro x hx; simp [hrest x hx]) (by simp [isWsChar])]
    rw [dropWhile_append_stop _ rest ' ' r
      (by intro x hx; simp [hrest x hx]) (by simp [isWsChar])]
    rw [splitWs_ws_cons ' ' r (by simp [isWsChar])]

theorem intercalate_cons2 {α : Type} (sep l l2 : List α) (ls : List (List α)) :
    List.intercalate sep (l :: l2 :: ls) = l ++ sep ++ List.intercalate sep (l2 :: ls) := by
  simp [List.intercalate, List.intersperse]

theorem splitWs_intercalate (ts : List Str) (h : ∀ t ∈ ts, isToken t = true) :
    splitWs (List.intercalate [' '] ts) = ts := by
  induction ts with
  | nil => simpa [List.intercalate] using splitWs_nil
  | cons a as ih =>
    cases as with
    | nil =>
      simpa [List.intercalate] using splitWs_token a (h a (by simp))
    | cons a2 as2 =>
      rw [intercalate_cons2]
      rw [List.append_assoc, List.singleton_append]
      rw [splitWs_token_sp _ _ (h a (by simp))]
      rw [ih (fun t ht => h t (by simp [ht]))]

/-! Trimming and header-line splitting. -/

theorem trimStr_sp_cons (v : Str) : trimStr (' ' :: v) = trimStr v := by
  have : isWsChar ' ' = true := by simp [isWsChar]
  simp [trimStr, List.dropWhile_cons, this]

theorem splitOnceColon_no_colon (k : Str) (r : Str)
    (hk : ∀ x ∈ k, x ≠ ':') :
    splitOnceColon (k ++ ':' :: r) = some (k, r) := by
  induction k with
  | nil => simp [splitOnceColon]
  | cons c t ih =>
    have hc : ¬(c = ':') := hk c (by simp)
    rw [List.cons_append, splitOnceColon]
    simp only [hc, if_false]
    rw [ih (fun x hx => hk x (by simp [hx]))]

/-! Decimal rendering and parsing of unsigned integers. -/

/-- The character for a single decimal digit. -/
def digitCh : Nat → Char
  | 0 => '0' | 1 => '1' | 2 => '2' | 3 => '3' | 4 => '4'
  | 5 => '5' | 6 => '6' | 7 => '7' | 8 => '8' | _ => '9'

/-- Fuelled digit expansion; the fuel bounds the number of digits, so the
recursion is structural and values compute by kernel reduction. -/
def natToStrAux : Nat → Nat → Str
  | _, 0 => []
  | 0, _ + 1 => []
  | fuel + 1, n + 1 =>
    natToStrAux fuel ((n + 1) / 10) ++ [digitCh ((n + 1) % 10)]

/-- Rust `u64::to_string` and friends: decimal rendering, no sign. -/
def natToStr (n : Nat) : Str :=
  if n = 0 then ['0'] else natToStrAux n n

/-- Numeric value of a decimal digit character. -/
def chVal (c : Char) : Nat := c.toNat - 48

/-- Numeric value of a string of decimal digits (big-endian). -/
def digitsVal (s : Str) : Nat := s.foldl (fun a c => a * 10 + chVal c) 0

/-- Core of Rust unsigned-integer parsing: all characters must be decimal
digits and there must be at least one. -/
def parseNatCore (s : Str) : Option Nat :=
  if s ≠ [] ∧ s.all Char.isDigit then some (digitsVal s) else none

/-- Strip one leading `+` sign, as Rust integer parsing permits. -/
def dropPlus (s : Str) : Str :=
  match s with
  | c :: t => if c = '+' then t else s
  | [] => s

/-- Rust `str::parse::<uN>()`: an optional leading `+`, then decimal
digits; the value must fit in `w` bits. -/
def parseUInt (w : Nat) (s : Str) : Option Nat :=
  match parseNatCore (dropPlus s) with
  | some v => if v < 2 ^ w then some v else none
  | none => none

theorem digitCh_isDigit (d : Nat) (h : d < 10) : (digitCh d).isDigit = true := by
  interval_cases d <;> rfl

theorem chVal_digitCh (d : Nat) (h : d < 10) : chVal (digitCh d) = d := by
  interval_cases d <;> rfl

theorem digitsVal_append (a b : Str) :
    digitsVal (a ++ b) = b.foldl (fun x c => x * 10 + chVal c) (digitsVal a) := by
  simp [digitsVal, List.foldl_append]

theorem digitsVal_snoc (a : Str) (c : Char) :
    digitsVal (a ++ [c]) = digitsVal a * 10 + chVal c := by
  simp [digitsVal_append, List.foldl]

theorem natToStrAux_zero (fuel : Nat) : natToStrAux fuel 0 = [] := by
  cases fuel <;> rfl

theorem natToStrAux_succ (fuel n : Nat) (hn : n ≠ 0) :
    natToStrAux (fuel + 1) n = natToStrAux fuel (n / 10) ++ [digitCh (n % 10)] := by
  cases n with
  | zero => exact absurd rfl hn
  | succ m => rfl

theorem digitsVal_natToStrAux (fuel : Nat) :
    ∀ n, n ≤ fuel → digitsVal (natToStrAux fuel n) = n := by
  induction fuel with
  | zero =>
    intro n hn
    have : n = 0 := Nat.le_zero.mp hn
    subst this
    rw [natToStrAux_zero]
    rfl
  | succ fuel ih =>
    intro n hn
    by_cases h0 : n = 0
    · subst h0
      rw [natToStrAux_zero]
      rfl
    · rw [natToStrAux_succ fuel n h0, digitsVal_snoc,
        chVal_digitCh _ (Nat.mod_lt n (by norm_num))]
      have hdiv : n / 10 < n := Nat.div_lt_self (Nat.pos_of_ne_zero h0) (by norm_num)
      rw [ih (n / 10) (by omega)]
      omega

theorem digitsVal_natToStr (n : Nat) : digitsVal (natToStr n) = n := by
  by_cases h0 : n = 0
  · subst h0; rfl
  · rw [natToStr, if_neg h0]
    exact digitsVal_natToStrAux n n (Nat.le_refl n)

theorem natToStrAux_all_digits (fuel : Nat) :
    ∀ n, ∀ c ∈ natToStrAux fuel n, c.isDigit = true := by
  induction fuel with
  | zero =>
    intro n c hc
    cases n <;> simp [natToStrAux] at hc
  | succ fuel ih =>
    intro n c hc
    by_cases h0 : n = 0
    · subst h0
      rw [natToStrAux_zero] at hc
      simp at hc
    · rw [natToStrAux_succ fuel n h0] at hc
      rcases List.mem_append.mp hc with h1 | h2
      · exact ih (n / 10) c h1
      · have : c = digitCh (n % 10) := by simpa using h2
        subst this
        exact digitCh_isDigit _ (Nat.mod_lt n (by norm_num))

theorem natToStr_all_digits (n : Nat) :
    ∀ c ∈ natToStr n, c.isDigit = true := by
  intro c hc
  rw [natToStr] at hc
  by_cases h0 : n = 0
  · simp [h0] at hc
    subst hc
    rfl
  · rw [if_neg h0] at hc
    exact natToStrAux_all_digits n n c hc

theorem natToStr_ne_nil (n : Nat) : natToStr n ≠ [] := by
  rw [natToStr]
  by_cases h0 : n = 0
  · simp [h0]
  · rw [if_neg h0]
    cases n with
    | zero => exact absurd rfl h0
    | succ m =>
      rw [natToStrAux_succ m (m + 1) (by omega)]
      simp

theorem parseNatCore_natToStr (n : Nat) : parseNatCore (natToStr n) = some n := by
  have hall : (natToStr n).all Char.isDigit = true := by
    rw [List.all_eq_true]
    exact fun c hc => natToStr_all_digits n c hc
  rw [parseNatCore, if_pos ⟨natToStr_ne_nil n, hall⟩, digitsVal_natToStr]

theorem natToStr_head_digit (n : Nat) :
    ∃ c t, natToStr n = c :: t ∧ c.isDigit = true := by
  cases h : natToStr n with
  | nil => exact absurd h (natToStr_ne_nil n)
  | cons c t =>
    refine ⟨c, t, rfl, natToStr_all_digits n c ?_⟩
    rw [h]; simp

theorem dropPlus_of_head_ne (c : Char) (t : Str) (h : c ≠ '+') :
    dropPlus (c :: t) = c :: t := by
  simp [dropPlus, h]

theorem parseUInt_natToStr (w n : Nat) (h : n < 2 ^ w) :
    parseUInt w (natToStr n) = some n := by
  obtain ⟨c, t, heq, hdig⟩ := natToStr_head_digit n
  have hplus : c ≠ '+' := by
    intro hc
    subst hc
    simp [Char.isDigit] at hdig
  have hdrop : dropPlus (natToStr n) = natToStr n := by
    rw [heq, dropPlus_of_head_ne c t hplus]
  rw [parseUInt, hdrop, parseNatCore_natToStr]
  simp [h]

/-! The frame codec, from `src/protocol/frame.rs`.

A `Frame` holds the verb, the start-line arguments, a case-sensitive
header map (modelled as an association list with replace-on-insert,
mirroring `HashMap`), and an optional body. -/

structure Frame where
  verb : Str
  args : List Str
  headers : List (Str × Str)
  body : Option Str
deriving DecidableEq, Repr

/-- `Frame::new`: construct a frame with a verb and nothing else. -/
def Frame.new (verb : Str) : Frame :=
  { verb := verb, args := [], headers := [], body := none }

/-- `Frame::set_header`: set or replace a header. -/
def Frame.set_header (f : Frame) (k v : Str) : Frame :=
  { f with headers := insertA k v f.headers }

/-- `Frame::header`: convenience getter. -/
def Frame.header (f : Frame) (k : Str) : Option Str :=
  lookupA k f.headers

/-- One serialised header line `Key: Value` (without the CRLF). -/
def headerLine (kv : Str × Str) : Str := kv.1 ++ ':' :: ' ' :: kv.2

/-- `Frame::to_string`: start line, header lines, `End:` marker, body. -/
def Frame.to_string (f : Frame) : Str :=
  (if f.args.isEmpty then f.verb else f.verb ++ ' ' :: List.intercalate [' '] f.args)
  ++ crlf
  ++ (f.headers.map (fun kv => headerLine kv ++ crlf)).join
  ++ str "End:" ++ crlf
  ++ f.body.getD []

/-- The header/body loop of `Frame::parse`: walk the lines after the start
line, inserting header pairs until the `End:` marker; every line after the
marker is a body line.  Empty lines and lines without a colon are
skipped. -/
def parseLines : List Str → List (Str × Str) → List (Str × Str) × List Str
  | [], acc => (acc, [])
  | l :: rest, acc =>
    if l = str "End:" then (acc, rest)
    else if l = [] then parseLines rest acc
    else match splitOnceColon l with
      | some (k, v) => parseLines rest (insertA (trimStr k) (trimStr v) acc)
      | none => parseLines rest acc

/-- `Frame::parse`: split on CRLF, read the start line (verb then args,
whitespace-separated), then headers and body. -/
def Frame.parse (raw : Str) : Option Frame :=
  match splitCRLF raw with
  | [] => none
  | start :: rest =>
    match splitWs start with
    | [] => none
    | verb :: args =>
      let hb := parseLines rest []
      some { verb := verb, args := args, headers := hb.1,
             body := if hb.2.isEmpty then none else some (joinCRLF hb.2) }

/-! Round-trip lemmas for the codec. -/

/-- Strings whose characters are never `\r` contain no CRLF. -/
theorem noCRLF_of_no_cr (s : Str) (h : ∀ x ∈ s, x ≠ '\r') : noCRLF s = true := by
  induction s with
  | nil => rfl
  | cons c t ih =>
    rw [noCRLF]
    have : ¬(c = '\r' ∧ t.head? = some '\n') := by
      intro ⟨hc, _⟩
      exact h c (by simp) hc
    simp only [this, if_false]
    exact ih (fun x hx => h x (by simp [hx]))

theorem mem_intercalate_sp (x : Char) (ts : List Str)
    (h : x ∈ List.intercalate [' '] ts) : x = ' ' ∨ ∃ t ∈ ts, x ∈ t := by
  induction ts with
  | nil => simp [List.intercalate] at h
  | cons a as ih =>
    cases as with
    | nil =>
      have ha : List.intercalate [' '] [a] = a := by simp [List.intercalate]
      rw [ha] at h
      exact Or.inr ⟨a, by simp, h⟩
    | cons a2 as2 =>
      rw [intercalate_cons2] at h
      rcases List.mem_append.mp h with h1 | h2
      · rcases List.mem_append.mp h1 with h3 | h4
        · exact Or.inr ⟨a, by simp, h3⟩
        · left
          simpa using h4
      · rcases ih h2 with h3 | ⟨t, ht, hx⟩
        · exact Or.inl h3
        · exact Or.inr ⟨t, List.mem_cons_of_mem a ht, hx⟩

/-- Tokens contain no whitespace, hence no carriage return. -/
theorem token_no_cr (t : Str) (h : isToken t = true) : ∀ x ∈ t, x ≠ '\r' := by
  obtain ⟨_, hws⟩ := isToken_parts t h
  intro x hx hcr
  subst hcr
  have := hws '\r' hx
  simp [isWsChar] at this

/-- The start line of a wire-safe frame contains no CRLF. -/
theorem startLine_noCRLF (verb : Str) (args : List Str)
    (hv : isToken verb = true) (ha : ∀ a ∈ args, isToken a = true) :
    noCRLF (if args.isEmpty then verb
      else verb ++ ' ' :: List.intercalate [' '] args) = true := by
  apply noCRLF_of_no_cr
  intro x hx
  by_cases hargs : args.isEmpty
  · rw [if_pos hargs] at hx
    exact token_no_cr verb hv x hx
  · rw [if_neg hargs] at hx
    simp only [List.mem_append, List.mem_cons] at hx
    rcases hx with hx | hx | hx
    · exact token_no_cr verb hv x hx
    · subst hx; decide
    · rcases mem_intercalate_sp x args hx with h2 | ⟨t, ht, hxt⟩
      · subst h2; decide
      · exact token_no_cr t (ha t ht) x hxt

/-- A header line built from CRLF-free key and value is CRLF-free. -/
theorem headerLine_noCRLF (k v : Str) (hk : noCRLF k = true) (hv : noCRLF v = true) :
    noCRLF (headerLine (k, v)) = true := by
  unfold headerLine
  induction k with
  | nil =>
    rw [List.nil_append, noCRLF]
    simp only [show ¬((':' : Char) = '\r' ∧ ((' ' :: v).head? = some '\n')) from
      (by intro ⟨h, _⟩; exact absurd h (by decide)), if_false]
    rw [noCRLF]
    simp only [show ¬((' ' : Char) = '\r' ∧ (v.head? = some '\n')) from
      (by intro ⟨h, _⟩; exact absurd h (by decide)), if_false]
    exact hv
  | cons c k2 ih =>
    obtain ⟨hhead, htail⟩ := noCRLF_cons c k2 hk
    rw [List.cons_append, noCRLF]
    have hcond : ¬(c = '\r' ∧ ((k2 ++ ':' :: ' ' :: v).head? = some '\n')) := by
      intro ⟨hc, hh⟩
      cases k2 with
      | nil => simp at hh
      | cons y t =>
        apply hhead
        exact ⟨hc, by simpa using hh⟩
    simp only [hcond, if_false]
    exact ih htail

/-- Well-formedness of one header pair for wire round-tripping: the key is
colon-free, both sides are CRLF-free and stable under trimming. -/
def goodHeader (kv : Str × Str) : Prop :=
  (∀ x ∈ kv.1, x ≠ ':') ∧ noCRLF kv.1 = true ∧ noCRLF kv.2 = true ∧
    trimStr kv.1 = kv.1 ∧ trimStr kv.2 = kv.2

theorem keysA_cons {κ α : Type} (kv : κ × α) (m : List (κ × α)) :
    keysA (kv :: m) = kv.1 :: keysA m := rfl

theorem keysA_append {κ α : Type} (m1 m2 : List (κ × α)) :
    keysA (m1 ++ m2) = keysA m1 ++ keysA m2 := by
  simp [keysA]

theorem insertA_not_mem {κ α : Type} [DecidableEq κ] (k : κ) (v : α) (m : List (κ × α))
    (h : k ∉ keysA m) : insertA k v m = m ++ [(k, v)] := by
  induction m with
  | nil => rfl
  | cons kv t ih =>
    obtain ⟨k2, v2⟩ := kv
    rw [keysA_cons] at h
    simp only [List.mem_cons, not_or] at h
    rw [insertA, if_neg (fun he => h.1 he.symm), ih h.2]
    rfl

theorem headerLine_ne_end (kv : Str × Str) : headerLine kv ≠ str "End:" := by
  intro h
  have hsp : ' ' ∈ headerLine kv := by
    unfold headerLine
    simp
  rw [h] at hsp
  exact absurd hsp (by decide)

theorem headerLine_ne_nil (kv : Str × Str) : headerLine kv ≠ [] := by
  intro h
  have := congrArg List.length h
  simp [headerLine] at this

theorem splitOnceColon_headerLine (kv : Str × Str) (hk : ∀ x ∈ kv.1, x ≠ ':') :
    splitOnceColon (headerLine kv) = some (kv.1, ' ' :: kv.2) :=
  splitOnceColon_no_colon kv.1 (' ' :: kv.2) hk

theorem parseLines_run (hs : List (Str × Str)) (body : List Str)
    (acc : List (Str × Str))
    (hgood : ∀ kv ∈ hs, goodHeader kv)
    (hnd : (keysA hs).Nodup)
    (hdisj : ∀ k ∈ keysA hs, k ∉ keysA acc) :
    parseLines (hs.map headerLine ++ str "End:" :: body) acc = (acc ++ hs, body) := by
  induction hs generalizing acc with
  | nil =>
    rw [List.map_nil, List.nil_append, parseLines, if_pos rfl, List.append_nil]
  | cons kv t ih =>
    obtain ⟨hcol, hkcr, hvcr, hktr, hvtr⟩ := hgood kv (by simp)
    rw [List.map_cons, List.cons_append, parseLines,
      if_neg (headerLine_ne_end kv), if_neg (headerLine_ne_nil kv),
      splitOnceColon_headerLine kv hcol]
    simp only
    rw [hktr, trimStr_sp_cons, hvtr]
    have hk_not_acc : kv.1 ∉ keysA acc := hdisj kv.1 (by rw [keysA_cons]; simp)
    rw [insertA_not_mem kv.1 kv.2 acc hk_not_acc]
    rw [keysA_cons] at hnd
    have hnd2 := hnd.of_cons
    have hk_not_t : kv.1 ∉ keysA t := (List.nodup_cons.mp hnd).1
    have hstep := ih (acc ++ [(kv.1, kv.2)])
      (fun kv2 h2 => hgood kv2 (by simp [h2]))
      hnd2
      (by
        intro k hk
        rw [keysA_append]
        simp only [List.mem_append, not_or]
        constructor
        · exact hdisj k (by rw [keysA_cons]; simp [hk])
        · intro hmem
          have : k = kv.1 := by simpa [keysA] using hmem
          exact hk_not_t (this ▸ hk))
    rw [hstep]
    simp

/-- Splitting the concatenation of CRLF-terminated, CRLF-free lines
followed by a tail recovers the lines and the split of the tail. -/
theorem splitCRLF_join_lines (ls : List Str) (t : Str)
    (h : ∀ l ∈ ls, noCRLF l = true) :
    splitCRLF ((ls.map (fun l => l ++ crlf)).join ++ t) = ls ++ splitCRLF t := by
  induction ls with
  | nil => simp
  | cons l rest ih =>
    have key : (List.map (fun l2 => l2 ++ crlf) (l :: rest)).join ++ t
        = l ++ '\r' :: '\n' :: ((rest.map (fun l2 => l2 ++ crlf)).join ++ t) := by
      simp [crlf]
    rw [key, splitCRLF_sep_append _ _ (h l (by simp)),
      ih (fun l2 h2 => h l2 (by simp [h2]))]
    rfl

/-- Round trip of the codec for wire-safe frames: parsing the serialised
frame returns the verb, args and headers unchanged, and the body
normalised from `None` to the empty body. -/
theorem frame_parse_to_string (f : Frame)
    (hv : isToken f.verb = true)
    (ha : ∀ a ∈ f.args, isToken a = true)
    (hnd : (keysA f.headers).Nodup)
    (hgood : ∀ kv ∈ f.headers, goodHeader kv) :
    Frame.parse (Frame.to_string f) =
      some { verb := f.verb, args := f.args, headers := f.headers,
             body := some (f.body.getD []) } := by
  have hshape : Frame.to_string f =
      (List.map (fun l => l ++ crlf)
        ((if f.args.isEmpty then f.verb
          else f.verb ++ ' ' :: List.intercalate [' '] f.args)
          :: f.headers.map headerLine ++ [str "End:"])).join ++ f.body.getD [] := by
    simp only [Frame.to_string, List.map_cons, List.map_append, List.map_map,
      List.join_cons, List.join_append, List.append_assoc]
    rfl
  have hlines : ∀ l ∈ (if f.args.isEmpty then f.verb
      else f.verb ++ ' ' :: List.intercalate [' '] f.args)
      :: f.headers.map headerLine ++ [str "End:"], noCRLF l = true := by
    intro l hl
    rcases List.mem_cons.mp hl with h1 | h2
    · subst h1
      exact startLine_noCRLF f.verb f.args hv ha
    · rcases List.mem_append.mp h2 with h3 | h4
      · obtain ⟨kv, hkv, rfl⟩ := List.mem_map.mp h3
        obtain ⟨k, v2⟩ := kv
        obtain ⟨_, hkcr, hvcr, _, _⟩ := hgood (k, v2) hkv
        exact headerLine_noCRLF k v2 hkcr hvcr
      · have : l = str "End:" := by simpa using h4
        subst this
        decide
  have hsplit : splitCRLF (Frame.to_string f) =
      (if f.args.isEmpty then f.verb
        else f.verb ++ ' ' :: List.intercalate [' '] f.args)
      :: (f.headers.map headerLine ++ str "End:" :: splitCRLF (f.body.getD [])) := by
    rw [hshape, splitCRLF_join_lines _ _ hlines]
    simp
  have hws : splitWs (if f.args.isEmpty then f.verb
      else f.verb ++ ' ' :: List.intercalate [' '] f.args) = f.verb :: f.args := by
    cases harg : f.args with
    | nil =>
      simp only [harg, List.isEmpty_nil, if_true]
      exact splitWs_token f.verb hv
    | cons a as =>
      rw [if_neg (by simp : ¬(((a :: as) : List Str).isEmpty = true))]
      rw [splitWs_token_sp _ _ hv]
      rw [splitWs_intercalate (a :: as) (by rw [← harg]; exact ha)]
  have hpl : parseLines
      (f.headers.map headerLine ++ str "End:" :: splitCRLF (f.body.getD [])) []
      = (f.headers, splitCRLF (f.body.getD [])) := by
    have := parseLines_run f.headers (splitCRLF (f.body.getD [])) [] hgood hnd
      (by intro k hk; simp [keysA])
    simpa using this
  have hbody_ne : (splitCRLF (f.body.getD [])).isEmpty = false := by
    cases h2 : splitCRLF (f.body.getD []) with
    | nil => exact absurd h2 (splitCRLF_ne_nil _)
    | cons l ls => rfl
  unfold Frame.parse
  rw [hsplit]
  simp only [hws, hpl, hbody_ne, if_false, Bool.false_eq_true]
  rw [join_splitCRLF]

/-- Equality of frames modulo header ordering (header maps agree on every
lookup) and the missing-body ≡ empty-body normalisation, as used by the
round-trip claim. -/
def frameEquivMod (f g : Frame) : Prop :=
  g.verb = f.verb ∧ g.args = f.args ∧
  (∀ k, lookupA k g.headers = lookupA k f.headers) ∧
  g.body.getD [] = f.body.getD []

/-- The round-trip property of claim C1, at one frame. -/
def roundTripOK (f : Frame) : Prop :=
  ∃ g, Frame.parse (Frame.to_string f) = some g ∧ frameEquivMod f g

/-- C1 counterexample: the frame built by `Frame::new("V")` followed by
`set_header("K", " x")` does not round-trip, because `Frame::parse` trims
header values, so the leading space of the value is lost. -/
theorem c1_roundtrip_counterexample :
    ¬ roundTripOK ((Frame.new (str "V")).set_header (str "K") (str " x")) := by
  intro h
  obtain ⟨g, hparse, hequiv⟩ := h
  have hshape : Frame.to_string ((Frame.new (str "V")).set_header (str "K") (str " x"))
      = (List.map (fun l => l ++ crlf)
          [str "V", str "K:  x", str "End:"]).join ++ ([] : Str) := by decide
  have hsplit : splitCRLF (Frame.to_string
      ((Frame.new (str "V")).set_header (str "K") (str " x")))
      = [str "V", str "K:  x", str "End:", []] := by
    rw [hshape, splitCRLF_join_lines _ _ (by decide), splitCRLF_nil]
    rfl
  have hws : splitWs (str "V") = [str "V"] := splitWs_token (str "V") (by decide)
  have hg : Frame.parse (Frame.to_string
      ((Frame.new (str "V")).set_header (str "K") (str " x")))
      = some (Frame.mk (str "V") [] [(str "K", str "x")] (some [])) := by
    simp only [Frame.parse, hsplit, hws]
    rfl
  rw [hg] at hparse
  have hge : Frame.mk (str "V") [] [(str "K", str "x")] (some []) = g :=
    Option.some.inj hparse
  subst hge
  have hlook := hequiv.2.2.1 (str "K")
  exact absurd hlook (by decide)

/-- C1 (amended): every frame whose verb and args are nonempty
whitespace-free tokens and whose headers have colon-free, CRLF-free,
trim-stable, pairwise-distinct keys and CRLF-free trim-stable values
round-trips through `Frame::to_string` and `Frame::parse`, up to header
ordering and the normalisation of a missing body to an empty body. -/
theorem c1_roundtrip_amended (f : Frame)
    (hv : isToken f.verb = true)
    (ha : ∀ a ∈ f.args, isToken a = true)
    (hnd : (keysA f.headers).Nodup)
    (hgood : ∀ kv ∈ f.headers, goodHeader kv) :
    roundTripOK f := by
  refine ⟨{ verb := f.verb, args := f.args, headers := f.headers,
            body := some (f.body.getD []) },
    frame_parse_to_string f hv ha hnd hgood, rfl, rfl, fun k => rfl, rfl⟩

/-- Witness for C1 (amended) at a concrete frame with an argument, two
headers and a body. -/
theorem c1_roundtrip_amended_witness :
    roundTripOK (Frame.mk (str "EVENT") [str "a1"]
      [(str "Lane", str "2"), (str "Seq", str "7")] (some (str "hello world"))) :=
  c1_roundtrip_amended _ (by decide) (by decide) (by decide)
    (by
      intro kv hkv
      simp only [List.mem_cons, List.mem_singleton] at hkv
      rcases hkv with rfl | rfl | h
      · exact ⟨by decide, by decide, by decide, by decide, by decide⟩
      · exact ⟨by decide, by decide, by decide, by decide, by decide⟩
      · simp at h)

/-! The lane abstraction, from `src/protocol/lane.rs`.  Lane ids are u16
values and sequence numbers u64; both are modelled as `Nat`. -/

structure Lane where
  id : Nat
  next_seq_out : Nat
  expected_seq_in : Nat
  credits : Nat
  pending_out : List Str
  acks : Nat
deriving DecidableEq, Repr

/-- `Lane::new`: default credit window of 16 frames. -/
def Lane.new (id : Nat) : Lane :=
  { id := id, next_seq_out := 1, expected_seq_in := 1, credits := 16,
    pending_out := [], acks := 0 }

/-- `Lane::next_seq`: reserve the next outgoing sequence number. -/
def Lane.next_seq (l : Lane) : Nat × Lane :=
  (l.next_seq_out, { l with next_seq_out := l.next_seq_out + 1 })

/-- `Lane::ack`: only monotonically increasing acknowledgements are
accepted. -/
def Lane.ack (l : Lane) (seq : Nat) : Lane :=
  if seq > l.acks then { l with acks := seq } else l

/-- `Lane::add_credit`: `credits` is a `u32`, so the release-build
`credits += n` wraps modulo `2 ^ 32` on overflow (a debug build would
panic instead). -/
def Lane.add_credit (l : Lane) (n : Nat) : Lane :=
  { l with credits := (l.credits + n) % 2 ^ 32 }

/-- `Lane::try_send`: consume one credit, or queue the frame. -/
def Lane.try_send (l : Lane) (msg : Str) : Option Str × Lane :=
  if l.credits > 0 then (some msg, { l with credits := l.credits - 1 })
  else (none, { l with pending_out := l.pending_out ++ [msg] })

/-- The `while` loop of `Lane::flush_pending`: release queued frames while
credit remains.  Returns (released frames, remaining credits, remaining
queue). -/
def flushLoop : Nat → List Str → List Str × Nat × List Str
  | 0, q => ([], 0, q)
  | c + 1, [] => ([], c + 1, [])
  | c + 1, m :: q =>
    let r := flushLoop c q
    (m :: r.1, r.2.1, r.2.2)

/-- `Lane::flush_pending`. -/
def Lane.flush_pending (l : Lane) : List Str × Lane :=
  let r := flushLoop l.credits l.pending_out
  (r.1, { l with credits := r.2.1, pending_out := r.2.2 })

/-- The operations of claim C4 on one lane. -/
inductive LaneOp : Type
  | trySend (msg : Str)
  | addCredit (n : Nat)
  | flushPending
deriving DecidableEq, Repr

/-- One C4 operation: returns the new lane, the number of frames accepted
by `try_send` (0 or 1) and the number of frames released by
`flush_pending`. -/
def laneStep (l : Lane) : LaneOp → Lane × Nat × Nat
  | .trySend msg =>
    let r := l.try_send msg
    (r.2, if r.1.isSome then 1 else 0, 0)
  | .addCredit n => (l.add_credit n, 0, 0)
  | .flushPending =>
    let r := l.flush_pending
    (r.2, 0, r.1.length)

/-- Run a sequence of C4 operations, accumulating the accepted and
released counts. -/
def laneRun (l : Lane) : List LaneOp → Lane × Nat × Nat
  | [] => (l, 0, 0)
  | op :: ops =>
    let s := laneStep l op
    let r := laneRun s.1 ops
    (r.1, s.2.1 + r.2.1, s.2.2 + r.2.2)

/-- The total credit granted by a sequence of operations. -/
def creditsAdded : List LaneOp → Nat
  | [] => 0
  | .addCredit n :: ops => n + creditsAdded ops
  | _ :: ops => creditsAdded ops

theorem flushLoop_credits (c : Nat) (q : List Str) :
    (flushLoop c q).2.1 + (flushLoop c q).1.length = c := by
  induction c generalizing q with
  | zero => simp [flushLoop]
  | succ c ih =>
    cases q with
    | nil => simp [flushLoop]
    | cons m q2 =>
      have := ih q2
      simp [flushLoop]
      omega

/-- One C4 step: credit is conserved modulo `2 ^ 32` unconditionally, is
never created beyond the granted amount, is conserved exactly when the
granted total cannot overflow the `u32` counter, and the counter stays
below `2 ^ 32`. -/
theorem laneStep_spec (l : Lane) (op : LaneOp) :
    ((laneStep l op).1.credits + (laneStep l op).2.1 + (laneStep l op).2.2)
        % 2 ^ 32
      = (l.credits + creditsAdded [op]) % 2 ^ 32
    ∧ (laneStep l op).1.credits + (laneStep l op).2.1 + (laneStep l op).2.2
        ≤ l.credits + creditsAdded [op]
    ∧ (l.credits + creditsAdded [op] < 2 ^ 32 →
        (laneStep l op).1.credits + (laneStep l op).2.1 + (laneStep l op).2.2
          = l.credits + creditsAdded [op])
    ∧ (l.credits < 2 ^ 32 → (laneStep l op).1.credits < 2 ^ 32) := by
  cases op with
  | trySend msg =>
    by_cases h : l.credits > 0 <;>
      refine ⟨?_, ?_, ?_, ?_⟩ <;>
        simp [laneStep, Lane.try_send, h, creditsAdded] <;> omega
  | addCredit n =>
    refine ⟨?_, ?_, ?_, ?_⟩ <;>
      simp [laneStep, Lane.add_credit, creditsAdded] <;> omega
  | flushPending =>
    have := flushLoop_credits l.credits l.pending_out
    refine ⟨?_, ?_, ?_, ?_⟩ <;>
      simp [laneStep, Lane.flush_pending, creditsAdded] <;> omega

/-- Running a C4 operation sequence from a state whose credit counter is a
valid `u32` value: conservation modulo `2 ^ 32`, the `u32` bound on the
counter, and exact conservation when the running total cannot overflow. -/
theorem laneRun_spec (ops : List LaneOp) (l : Lane) (hcred : l.credits < 2 ^ 32) :
    ((laneRun l ops).1.credits + (laneRun l ops).2.1 + (laneRun l ops).2.2)
        % 2 ^ 32
      = (l.credits + creditsAdded ops) % 2 ^ 32
    ∧ (laneRun l ops).1.credits < 2 ^ 32
    ∧ (l.credits + creditsAdded ops < 2 ^ 32 →
        (laneRun l ops).1.credits + (laneRun l ops).2.1 + (laneRun l ops).2.2
          = l.credits + creditsAdded ops) := by
  induction ops generalizing l with
  | nil => exact ⟨by simp [laneRun, creditsAdded], hcred, by simp [laneRun, creditsAdded]⟩
  | cons op ops ih =>
    obtain ⟨hs1, hs2, hs3, hs4⟩ := laneStep_spec l op
    obtain ⟨hr1, hr2, hr3⟩ := ih (laneStep l op).1 (hs4 hcred)
    have hops : creditsAdded (op :: ops) = creditsAdded [op] + creditsAdded ops := by
      cases op <;> simp [creditsAdded]
    simp only [laneRun]
    refine ⟨by omega, hr2, ?_⟩
    intro hno
    have hse := hs3 (by omega)
    have hre := hr3 (by omega)
    omega

/-- C4 (counterexample): `credits` is a `u32`, so a single
`add_credit(u32::MAX)` — deliverable through one `CREDIT` frame — wraps
the counter (`16 + 4294967295` becomes `15`), and the conservation
equation of the claim already fails after that one operation. -/
theorem c4_credit_counterexample :
    ¬ ((laneRun (Lane.new 1) [LaneOp.addCredit 4294967295]).1.credits
        + (laneRun (Lane.new 1) [LaneOp.addCredit 4294967295]).2.1
        + (laneRun (Lane.new 1) [LaneOp.addCredit 4294967295]).2.2
      = 16 + creditsAdded [LaneOp.addCredit 4294967295]) := by
  decide

/-- C4 (amended): starting from `Lane::new` (credits 16), after any finite
sequence of `try_send`, `add_credit` and `flush_pending` operations,
credits plus the frames released by `flush_pending` plus the frames
accepted by `try_send` equals 16 plus all credit added modulo `2 ^ 32`
unconditionally, and exactly whenever 16 plus the total credit granted
stays below `2 ^ 32` (so the `u32` counter never overflows); the credit
counter always remains a valid `u32` value and is never negative. -/
theorem c4_credit_amended (id : Nat) (ops : List LaneOp) :
    ((laneRun (Lane.new id) ops).1.credits + (laneRun (Lane.new id) ops).2.1
        + (laneRun (Lane.new id) ops).2.2) % 2 ^ 32
      = (16 + creditsAdded ops) % 2 ^ 32
    ∧ (16 + creditsAdded ops < 2 ^ 32 →
        (laneRun (Lane.new id) ops).1.credits + (laneRun (Lane.new id) ops).2.1
            + (laneRun (Lane.new id) ops).2.2
          = 16 + creditsAdded ops)
    ∧ (laneRun (Lane.new id) ops).1.credits < 2 ^ 32
    ∧ 0 ≤ (laneRun (Lane.new id) ops).1.credits := by
  have hc : (Lane.new id).credits = 16 := rfl
  obtain ⟨h1, h2, h3⟩ := laneRun_spec ops (Lane.new id) (by omega)
  refine ⟨by omega, ?_, h2, Nat.zero_le _⟩
  intro hno
  have h4 := h3 (by omega)
  omega

/-- Witness for C4 (amended): granting 5 credits, sending one frame and
flushing satisfies the no-overflow bound, and the run conserves credit
exactly. -/
theorem c4_credit_amended_witness :
    16 + creditsAdded
        [LaneOp.addCredit 5, LaneOp.trySend (str "m"), LaneOp.flushPending]
      < 2 ^ 32
    ∧ (laneRun (Lane.new 1)
          [LaneOp.addCredit 5, LaneOp.trySend (str "m"), LaneOp.flushPending]).1.credits
        + (laneRun (Lane.new 1)
            [LaneOp.addCredit 5, LaneOp.trySend (str "m"), LaneOp.flushPending]).2.1
        + (laneRun (Lane.new 1)
            [LaneOp.addCredit 5, LaneOp.trySend (str "m"), LaneOp.flushPending]).2.2
      = 16 + creditsAdded
          [LaneOp.addCredit 5, LaneOp.trySend (str "m"), LaneOp.flushPending] :=
  ⟨by decide,
   (c4_credit_amended 1
      [LaneOp.addCredit 5, LaneOp.trySend (str "m"), LaneOp.flushPending]).2.1
     (by decide)⟩

/-! The reliability manager, from `src/protocol/reliability.rs`.
`Instant` values are modelled as `Nat` milliseconds; the pending map is an
association list keyed by `(lane, seq)`. -/

structure PendingFrame where
  lane : Nat
  seq : Nat
  data : Str
  last_sent : Nat
  attempts : Nat
deriving DecidableEq, Repr

/-- The pending map of the reliability manager. -/
abbrev RelSt := List ((Nat × Nat) × PendingFrame)

/-- `ReliabilityManager::track_frame`: register a frame with attempts 1 and
`last_sent` the current instant. -/
def ReliabilityManager.track_frame (st : RelSt) (lane seq : Nat) (data : Str)
    (now : Nat) : RelSt :=
  insertA (lane, seq) (PendingFrame.mk lane seq data now 1) st

/-- `ReliabilityManager::confirm_ack`: drop the entry for `(lane, seq)`. -/
def ReliabilityManager.confirm_ack (st : RelSt) (lane seq : Nat) : RelSt :=
  removeA (lane, seq) st

/-- The per-entry body of the resend scan: if the entry has waited at least
`interval` and has attempts below `max_retries`, stamp `last_sent := now`,
increment attempts and flag it for resending. -/
def scanEntry (interval maxRetries now : Nat)
    (e : (Nat × Nat) × PendingFrame) : ((Nat × Nat) × PendingFrame) × Bool :=
  if interval ≤ now - e.2.last_sent ∧ e.2.attempts < maxRetries then
    ((e.1, { e.2 with last_sent := now, attempts := e.2.attempts + 1 }), true)
  else (e, false)

/-- One wake-up of `ReliabilityManager::resend_loop`: update every expired
entry under the lock and collect the frame data to resend. -/
def ReliabilityManager.resend_scan (interval maxRetries now : Nat)
    (st : RelSt) : RelSt × List Str :=
  (st.map (fun e => (scanEntry interval maxRetries now e).1),
   (st.filter (fun e => (scanEntry interval maxRetries now e).2)).map
     (fun e => e.2.data))

/-- The pending map after `k` wake-ups of the resend loop, the `k`-th
happening at instant `interval * k`. -/
def ReliabilityManager.resend_iter (interval maxRetries : Nat) (st : RelSt) :
    Nat → RelSt
  | 0 => st
  | k + 1 =>
    (ReliabilityManager.resend_scan interval maxRetries (interval * (k + 1))
      (ReliabilityManager.resend_iter interval maxRetries st k)).1

/-- The frames emitted on the outbound channel by the `k`-th wake-up
(`k ≥ 1`). -/
def ReliabilityManager.resend_emits (interval maxRetries : Nat) (st : RelSt)
    (k : Nat) : List Str :=
  (ReliabilityManager.resend_scan interval maxRetries (interval * k)
    (ReliabilityManager.resend_iter interval maxRetries st (k - 1))).2

theorem resend_iter_nil (interval maxRetries k : Nat) :
    ReliabilityManager.resend_iter interval maxRetries [] k = [] := by
  induction k with
  | zero => rfl
  | succ k ih =>
    simp [ReliabilityManager.resend_iter, ih, ReliabilityManager.resend_scan]

theorem resend_iter_succ (i m : Nat) (st : RelSt) (k : Nat) :
    ReliabilityManager.resend_iter i m st (k + 1)
      = (ReliabilityManager.resend_scan i m (i * (k + 1))
          (ReliabilityManager.resend_iter i m st k)).1 := rfl

theorem c2_iter_one (d : Str) :
    ReliabilityManager.resend_iter 100 3 (ReliabilityManager.track_frame [] 1 7 d 0) 1
      = [((1, 7), PendingFrame.mk 1 7 d 100 2)] := by
  rw [resend_iter_succ]
  simp [ReliabilityManager.resend_iter, ReliabilityManager.resend_scan,
    ReliabilityManager.track_frame, insertA, scanEntry]

theorem c2_iter_ge_two (d : Str) (k : Nat) (hk : 2 ≤ k) :
    ReliabilityManager.resend_iter 100 3 (ReliabilityManager.track_frame [] 1 7 d 0) k
      = [((1, 7), PendingFrame.mk 1 7 d 200 3)] := by
  induction k with
  | zero => omega
  | succ k ih =>
    by_cases h2 : 2 ≤ k
    · rw [resend_iter_succ, ih h2]
      simp [ReliabilityManager.resend_scan, scanEntry]
    · have hk1 : k = 1 := by omega
      subst hk1
      rw [resend_iter_succ, c2_iter_one d]
      simp [ReliabilityManager.resend_scan, scanEntry]

/-- C2 counterexample: with `resend_interval = 100` and `max_retries = 3`, a
frame tracked at instant 0 and never acknowledged is re-emitted by the
resend loop at the wake-ups at 100 and 200 only — the wake-up at 300 (and
every later one) emits nothing, because the scan requires
`attempts < max_retries` and `attempts` starts at 1 counting the original
transmission.  The claimed third re-emission does not happen. -/
theorem c2_retransmit_counterexample :
    ReliabilityManager.resend_emits 100 3
        (ReliabilityManager.track_frame [] 1 7 (str "F") 0) 1 = [str "F"]
    ∧ ReliabilityManager.resend_emits 100 3
        (ReliabilityManager.track_frame [] 1 7 (str "F") 0) 2 = [str "F"]
    ∧ ReliabilityManager.resend_emits 100 3
        (ReliabilityManager.track_frame [] 1 7 (str "F") 0) 3 = []
    ∧ ReliabilityManager.resend_emits 100 3
        (ReliabilityManager.track_frame [] 1 7 (str "F") 0) 4 = [] := by
  refine ⟨by decide, by decide, by decide, by decide⟩

/-- C2 (amended): with `resend_interval = 100` and `max_retries = 3`, a
frame tracked at instant 0 and never acknowledged is re-emitted exactly
twice — at the wake-ups at ≈100 and ≈200 — and never afterwards; calling
`confirm_ack(1, 7)` before the first scan suppresses every re-emission. -/
theorem c2_retransmit_amended (d : Str) (k : Nat) (hk : 1 ≤ k) :
    ReliabilityManager.resend_emits 100 3
        (ReliabilityManager.track_frame [] 1 7 d 0) k
      = (if k ≤ 2 then [d] else [])
    ∧ ReliabilityManager.resend_emits 100 3
        (ReliabilityManager.confirm_ack
          (ReliabilityManager.track_frame [] 1 7 d 0) 1 7) k = [] := by
  constructor
  · unfold ReliabilityManager.resend_emits
    match k, hk with
    | 1, _ =>
      simp [ReliabilityManager.resend_iter, ReliabilityManager.resend_scan,
        ReliabilityManager.track_frame, insertA, scanEntry]
    | 2, _ =>
      have h1 : (2 : Nat) - 1 = 1 := rfl
      rw [h1, c2_iter_one d]
      simp [ReliabilityManager.resend_scan, scanEntry]
    | (n + 3), _ =>
      have h1 : n + 3 - 1 = n + 2 := rfl
      rw [h1, c2_iter_ge_two d (n + 2) (by omega)]
      simp [ReliabilityManager.resend_scan, scanEntry]
  · have hconfirm : ReliabilityManager.confirm_ack
        (ReliabilityManager.track_frame [] 1 7 d 0) 1 7 = [] := by
      simp [ReliabilityManager.confirm_ack, ReliabilityManager.track_frame,
        insertA, removeA]
    rw [hconfirm]
    unfold ReliabilityManager.resend_emits
    rw [resend_iter_nil]
    simp [ReliabilityManager.resend_scan]

/-- Witness for C2 (amended) at `k = 3` with a concrete frame body. -/
theorem c2_retransmit_amended_witness :
    ReliabilityManager.resend_emits 100 3
        (ReliabilityManager.track_frame [] 1 7 (str "x") 0) 3
      = (if 3 ≤ 2 then [str "x"] else [])
    ∧ ReliabilityManager.resend_emits 100 3
        (ReliabilityManager.confirm_ack
          (ReliabilityManager.track_frame [] 1 7 (str "x") 0) 1 7) 3 = [] :=
  c2_retransmit_amended (str "x") 3 (by decide)

/-! The lane manager, from `src/protocol/lane_manager.rs`: a registry of
lanes keyed by lane id, with lanes auto-created on first access (except in
`ack`, which uses `get_mut` and ignores unknown lanes). -/

/-- The lane registry. -/
abbrev LaneMap := List (Nat × Lane)

/-- `LaneManager::ack`: record an acknowledgement if the lane exists; late
or duplicate acknowledgements are silently ignored by `Lane::ack`. -/
def LaneManager.ack (m : LaneMap) (lane_id seq : Nat) : LaneMap :=
  match lookupA lane_id m with
  | some l => insertA lane_id (l.ack seq) m
  | none => m

/-- `LaneManager::add_credit`: create the lane if missing, add credit and
flush; returns the released frames. -/
def LaneManager.add_credit (m : LaneMap) (lane_id n : Nat) : LaneMap × List Str :=
  let l := ((lookupA lane_id m).getD (Lane.new lane_id)).add_credit n
  let r := l.flush_pending
  (insertA lane_id r.2 m, r.1)

/-- `LaneManager::send_or_queue`: create the lane if missing and attempt to
send. -/
def LaneManager.send_or_queue (m : LaneMap) (lane_id : Nat) (msg : Str) :
    LaneMap × Option Str :=
  let l := (lookupA lane_id m).getD (Lane.new lane_id)
  let r := l.try_send msg
  (insertA lane_id r.2 m, r.1)

/-! The acknowledgement/credit manager, from `src/protocol/ack.rs`. -/

/-- Rust `str::trim_start_matches('+')`: strip every leading `+`. -/
def dropAllPlus (s : Str) : Str := s.dropWhile (fun c => c = '+')

/-- `AckManager::handle_control_frame`: react to `ACK` and `CREDIT` control
frames by updating the lane map; `CREDIT` pushes every released frame onto
the outbound channel (returned here as a list), all other verbs are
ignored.  The manager holds no reference to the reliability layer. -/
def AckManager.handle_control_frame (frame : Frame) (m : LaneMap) :
    LaneMap × List Str :=
  let lane_id := ((frame.header (str "Lane")).bind (parseUInt 16)).getD 0
  if frame.verb = str "ACK" then
    match frame.header (str "ACK") with
    | some seqStr =>
      match parseUInt 64 seqStr with
      | some seq => (LaneManager.ack m lane_id seq, [])
      | none => (m, [])
    | none => (m, [])
  else if frame.verb = str "CREDIT" then
    match frame.header (str "Credit") with
    | some amountStr =>
      let amount := (parseUInt 32 (dropAllPlus amountStr)).getD 0
      let r := LaneManager.add_credit m lane_id amount
      (r.1, r.2)
    | none => (m, [])
  else (m, [])

/-- The system-level effect of an inbound control frame on the combined
(lane map, reliability pending map) state.  In the repository nothing
wires `AckManager` (or any frame handler) to
`ReliabilityManager::confirm_ack`, so the pending map passes through
unchanged. -/
def ackDispatch (frame : Frame) (m : LaneMap) (pending : RelSt) :
    LaneMap × RelSt × List Str :=
  let r := AckManager.handle_control_frame frame m
  (r.1, pending, r.2)

/-- Claim C3 as stated, at one input: handling an inbound ACK control frame
both forwards the acknowledgement to `LaneManager::ack` and removes the
`(lane, seq)` entry from the reliability manager's pending map. -/
def c3ClaimAt (frame : Frame) (m : LaneMap) (pending : RelSt)
    (lane seq : Nat) : Prop :=
  (ackDispatch frame m pending).1 = LaneManager.ack m lane seq
  ∧ lookupA (lane, seq) (ackDispatch frame m pending).2.1 = none

/-- C3 counterexample: a well-formed `ACK` frame for `(1, 7)` is forwarded
to the lane manager but the pending entry for `(1, 7)` survives, because
`AckManager::handle_control_frame` never calls
`ReliabilityManager::confirm_ack`. -/
theorem c3_ack_counterexample :
    ¬ c3ClaimAt
      (Frame.mk (str "ACK") [] [(str "Lane", str "1"), (str "ACK", str "7")] none)
      [(1, Lane.new 1)]
      [((1, 7), PendingFrame.mk 1 7 (str "x") 0 1)]
      1 7 := by
  intro h
  exact absurd h.2 (by decide)

theorem lookupA_removeA {κ α : Type} [DecidableEq κ] (k : κ) (m : List (κ × α)) :
    lookupA k (removeA k m) = none := by
  induction m with
  | nil => rfl
  | cons kv t ih =>
    by_cases hk : kv.1 = k
    · simpa [removeA, List.filter, hk] using ih
    · simpa [removeA, List.filter, hk, lookupA] using ih

/-- C3 (amended): for every inbound `ACK` control frame whose `Lane` header
resolves to `lane` (defaulting to 0) and whose `ACK` header parses as
`seq`, `AckManager::handle_control_frame` forwards the acknowledgement to
`LaneManager::ack(lane, seq)` and emits nothing, while the reliability
pending map is left unchanged — removing the `(lane, seq)` entry requires
the separate call `ReliabilityManager::confirm_ack(lane, seq)`, which does
remove it. -/
theorem c3_ack_amended (frame : Frame) (m : LaneMap) (pending : RelSt)
    (lane seq : Nat) (seqStr : Str)
    (hverb : frame.verb = str "ACK")
    (hlane : ((frame.header (str "Lane")).bind (parseUInt 16)).getD 0 = lane)
    (hack : frame.header (str "ACK") = some seqStr)
    (hseq : parseUInt 64 seqStr = some seq) :
    ackDispatch frame m pending = (LaneManager.ack m lane seq, pending, [])
    ∧ lookupA (lane, seq)
        (ReliabilityManager.confirm_ack pending lane seq) = none := by
  constructor
  · unfold ackDispatch AckManager.handle_control_frame
    rw [hverb, hlane, hack]
    simp [hseq]
  · exact lookupA_removeA (lane, seq) pending

/-- Witness for C3 (amended) at a concrete ACK frame and pending map. -/
theorem c3_ack_amended_witness :
    ackDispatch
        (Frame.mk (str "ACK") [] [(str "Lane", str "1"), (str "ACK", str "7")] none)
        [(1, Lane.new 1)] [((1, 7), PendingFrame.mk 1 7 (str "x") 0 1)]
      = (LaneManager.ack [(1, Lane.new 1)] 1 7,
         [((1, 7), PendingFrame.mk 1 7 (str "x") 0 1)], [])
    ∧ lookupA (1, 7)
        (ReliabilityManager.confirm_ack
          [((1, 7), PendingFrame.mk 1 7 (str "x") 0 1)] 1 7) = none :=
  c3_ack_amended _ _ _ 1 7 (str "7") (by decide) (by decide) (by decide) (by decide)

/-- C5: acknowledgements are idempotent.  Applying `Lane::ack(seq)` twice
equals applying it once, and likewise for
`ReliabilityManager::confirm_ack(lane, seq)` on the pending map; moreover
`Lane::ack` updates the highest-ack field only when `seq` is strictly
greater than its current value and silently ignores duplicate or late
acknowledgements. -/
theorem c5_ack_idempotent (l : Lane) (st : RelSt) (lane seq : Nat) :
    Lane.ack (Lane.ack l seq) seq = Lane.ack l seq
    ∧ ReliabilityManager.confirm_ack
        (ReliabilityManager.confirm_ack st lane seq) lane seq
      = ReliabilityManager.confirm_ack st lane seq
    ∧ (seq ≤ l.acks → Lane.ack l seq = l)
    ∧ (l.acks < seq → Lane.ack l seq = { l with acks := seq }) := by
  refine ⟨?_, ?_, ?_, ?_⟩
  · by_cases h : l.acks < seq <;> simp [Lane.ack, h]
  · simp [ReliabilityManager.confirm_ack, removeA, List.filter_filter]
  · intro h
    simp [Lane.ack]
    omega
  · intro h
    simp [Lane.ack, h]

/-- Witness for C5 at a lane with highest-ack 3 and a one-entry pending
map, acknowledging sequence 7. -/
theorem c5_ack_idempotent_witness :
    Lane.ack (Lane.ack (Lane.mk 5 4 1 16 [] 3) 7) 7
        = Lane.ack (Lane.mk 5 4 1 16 [] 3) 7
    ∧ ReliabilityManager.confirm_ack
        (ReliabilityManager.confirm_ack
          [((5, 7), PendingFrame.mk 5 7 (str "x") 0 1)] 5 7) 5 7
      = ReliabilityManager.confirm_ack
          [((5, 7), PendingFrame.mk 5 7 (str "x") 0 1)] 5 7
    ∧ (7 ≤ (Lane.mk 5 4 1 16 [] 3).acks →
        Lane.ack (Lane.mk 5 4 1 16 [] 3) 7 = Lane.mk 5 4 1 16 [] 3)
    ∧ ((Lane.mk 5 4 1 16 [] 3).acks < 7 →
        Lane.ack (Lane.mk 5 4 1 16 [] 3) 7
          = { Lane.mk 5 4 1 16 [] 3 with acks := 7 }) :=
  c5_ack_idempotent (Lane.mk 5 4 1 16 [] 3)
    [((5, 7), PendingFrame.mk 5 7 (str "x") 0 1)] 5 7

/-! SHA-256, as used by `TrustCache::fingerprint` (`sha2` crate) in
`src/security/trust.rs`.  Words are `Nat` values reduced mod `2 ^ 32`. -/

def add32 (a b : Nat) : Nat := (a + b) % 4294967296

def rotr32 (n x : Nat) : Nat := x / 2 ^ n % 4294967296 + x % 2 ^ n * 2 ^ (32 - n)

def shr32 (n x : Nat) : Nat := x / 2 ^ n

def not32 (x : Nat) : Nat := 4294967295 - x

def xor3 (a b c : Nat) : Nat := Nat.xor (Nat.xor a b) c

def shaCh (e f g : Nat) : Nat := Nat.xor (Nat.land e f) (Nat.land (not32 e) g)

def shaMaj (a b c : Nat) : Nat := xor3 (Nat.land a b) (Nat.land a c) (Nat.land b c)

def bSig0 (a : Nat) : Nat := xor3 (rotr32 2 a) (rotr32 13 a) (rotr32 22 a)

def bSig1 (e : Nat) : Nat := xor3 (rotr32 6 e) (rotr32 11 e) (rotr32 25 e)

def sSig0 (x : Nat) : Nat := xor3 (rotr32 7 x) (rotr32 18 x) (shr32 3 x)

def sSig1 (x : Nat) : Nat := xor3 (rotr32 17 x) (rotr32 19 x) (shr32 10 x)

def shaK : List Nat :=
  [1116352408, 1899447441, 3049323471, 3921009573, 961987163,
   1508970993, 2453635748, 2870763221, 3624381080, 310598401,
   607225278, 1426881987, 1925078388, 2162078206, 2614888103,
   3248222580, 3835390401, 4022224774, 264347078, 604807628,
   770255983, 1249150122, 1555081692, 1996064986, 2554220882,
   2821834349, 2952996808, 3210313671, 3336571891, 3584528711,
   113926993, 338241895, 666307205, 773529912, 1294757372,
   1396182291, 1695183700, 1986661051, 2177026350, 2456956037,
   2730485921, 2820302411, 3259730800, 3345764771, 3516065817,
   3600352804, 4094571909, 275423344, 430227734, 506948616,
   659060556, 883997877, 958139571, 1322822218, 1537002063,
   1747873779, 1955562222, 2024104815, 2227730452, 2361852424,
   2428436474, 2756734187, 3204031479, 3329325298]

def shaH0 : List Nat :=
  [1779033703, 3144134277, 1013904242, 2773480762,
   1359893119, 2600822924, 528734635, 1541459225]

def lenBytes8 (n : Nat) : List Nat :=
  [n / 2 ^ 56 % 256, n / 2 ^ 48 % 256, n / 2 ^ 40 % 256, n / 2 ^ 32 % 256,
   n / 2 ^ 24 % 256, n / 2 ^ 16 % 256, n / 2 ^ 8 % 256, n % 256]

/-- SHA-256 padding: `0x80`, zeros to 56 mod 64, then the 64-bit
big-endian bit length. -/
def shaPad (msg : List Nat) : List Nat :=
  msg ++ 0x80 :: List.replicate ((64 + 55 - msg.length % 64) % 64) 0
    ++ lenBytes8 (8 * msg.length)

/-- Group bytes into big-endian 32-bit words. -/
def toWords : List Nat → List Nat
  | b0 :: b1 :: b2 :: b3 :: rest =>
    (((b0 * 256 + b1) * 256 + b2) * 256 + b3) :: toWords rest
  | _ => []

/-- Group words into 16-word blocks. -/
def toBlocks : List Nat → List (List Nat)
  | w0 :: w1 :: w2 :: w3 :: w4 :: w5 :: w6 :: w7 :: w8 :: w9 :: w10 :: w11
      :: w12 :: w13 :: w14 :: w15 :: rest =>
    [w0, w1, w2, w3, w4, w5, w6, w7, w8, w9, w10, w11, w12, w13, w14, w15]
      :: toBlocks rest
  | _ => []

/-- Extend a 16-word block by `k` scheduled words. -/
def schedW (ws : List Nat) : Nat → List Nat
  | 0 => ws
  | k + 1 =>
    let prev := schedW ws k
    let n := prev.length
    prev ++ [add32 (add32 (sSig1 (prev.getD (n - 2) 0)) (prev.getD (n - 7) 0))
      (add32 (sSig0 (prev.getD (n - 15) 0)) (prev.getD (n - 16) 0))]

/-- One SHA-256 round on the eight-word working state. -/
def roundStep (st : List Nat) (wk : Nat × Nat) : List Nat :=
  match st with
  | [a, b, c, d, e, f, g, h] =>
    let t1 := add32 (add32 (add32 h (bSig1 e)) (add32 (shaCh e f g) wk.2)) wk.1
    let t2 := add32 (bSig0 a) (shaMaj a b c)
    [add32 t1 t2, a, b, c, add32 d t1, e, f, g]
  | _ => st

/-- Compress one block into the hash state. -/
def compressBlock (h : List Nat) (block : List Nat) : List Nat :=
  let ws := schedW block 48
  let st := (ws.zip shaK).foldl roundStep h
  List.zipWith add32 h st

/-- SHA-256 of a byte string, as 32 bytes. -/
def sha256bytes (msg : List Nat) : List Nat :=
  let hfin := (toBlocks (toWords (shaPad msg))).foldl compressBlock shaH0
  hfin.foldr (fun w acc =>
    [w / 2 ^ 24 % 256, w / 2 ^ 16 % 256, w / 2 ^ 8 % 256, w % 256] ++ acc) []

def hexCh (n : Nat) : Char :=
  if n < 10 then digitCh n
  else if n = 10 then 'a' else if n = 11 then 'b' else if n = 12 then 'c'
  else if n = 13 then 'd' else if n = 14 then 'e' else 'f'

/-- Lowercase hex rendering of SHA-256, as `hex::encode` produces. -/
def sha256hex (msg : List Nat) : Str :=
  (sha256bytes msg).foldr (fun b acc => hexCh (b / 16) :: hexCh (b % 16) :: acc) []

/-- UTF-8 encoding of one character (`str::as_bytes`). -/
def utf8Char (c : Char) : List Nat :=
  let n := c.toNat
  if n < 0x80 then [n]
  else if n < 0x800 then [0xC0 + n / 64, 0x80 + n % 64]
  else if n < 0x10000 then [0xE0 + n / 4096, 0x80 + n / 64 % 64, 0x80 + n % 64]
  else [0xF0 + n / 262144, 0x80 + n / 4096 % 64, 0x80 + n / 64 % 64, 0x80 + n % 64]

/-- UTF-8 bytes of a string. -/
def strBytes (s : Str) : List Nat := s.foldr (fun c acc => utf8Char c ++ acc) []

/-! The trust cache, from `src/security/trust.rs`.  Timestamps
(`Utc::now().timestamp()`) are parameters; the JSON file on disk is
modelled by the peer map it encodes (serde round-trips a
`HashMap<String, TrustedPeer>` faithfully), so `save` copies the in-memory
map to the `disk` field and `load` copies it back. -/

structure TrustedPeer where
  burrow_id : Str
  fingerprint : Str
  first_seen : Nat
  last_seen : Nat
  anchor_id : Option Str
deriving DecidableEq, Repr

structure TrustCacheSt where
  peers : List (Str × TrustedPeer)
  disk : List (Str × TrustedPeer)
deriving DecidableEq, Repr

/-- The error kinds surfaced by the embedded security layer. -/
inductive RErr : Type
  | fingerprintMismatch
  | missingScheme
  | unsupportedScheme
  | missingField
deriving DecidableEq, Repr

/-- `TrustCache::fingerprint`: SHA-256 hex of the PEM bytes. -/
def TrustCache.fingerprint (cert_pem : Str) : Str := sha256hex (strBytes cert_pem)

/-- `TrustCache::save`: persist the in-memory map. -/
def TrustCache.save (st : TrustCacheSt) : TrustCacheSt := { st with disk := st.peers }

/-- `TrustCache::load`: replace the in-memory map by the stored one. -/
def TrustCache.load (st : TrustCacheSt) : TrustCacheSt := { st with peers := st.disk }

/-- `TrustCache::is_trusted`. -/
def TrustCache.is_trusted (st : TrustCacheSt) (burrow_id : Str) : Bool :=
  (lookupA burrow_id st.peers).isSome

/-- `TrustCache::verify_or_remember`: TOFU pinning.  A mismatching
fingerprint fails before any mutation; a first sighting inserts a fresh
entry and persists; a matching fingerprint refreshes `last_seen` and
persists. -/
def TrustCache.verify_or_remember (st : TrustCacheSt) (burrow_id cert_pem : Str)
    (anchor : Option Str) (now : Nat) : Except RErr Unit × TrustCacheSt :=
  let fp := TrustCache.fingerprint cert_pem
  match lookupA burrow_id st.peers with
  | some existing =>
    if existing.fingerprint ≠ fp then (.error .fingerprintMismatch, st)
    else
      let st2 := { st with
        peers := insertA burrow_id { existing with last_seen := now } st.peers }
      (.ok (), TrustCache.save st2)
  | none =>
    let st2 := { st with
      peers := insertA burrow_id
        (TrustedPeer.mk burrow_id fp now now anchor) st.peers }
    (.ok (), TrustCache.save st2)

theorem lookupA_insertA_self {κ α : Type} [DecidableEq κ] (k : κ) (v : α)
    (m : List (κ × α)) : lookupA k (insertA k v m) = some v := by
  induction m with
  | nil => simp [insertA, lookupA]
  | cons kv t ih =>
    obtain ⟨k2, v2⟩ := kv
    by_cases hk : k2 = k <;> simp [insertA, lookupA, hk, ih]

theorem lookupA_insertA_ne {κ α : Type} [DecidableEq κ] (k k2 : κ) (v : α)
    (m : List (κ × α)) (h : k2 ≠ k) :
    lookupA k2 (insertA k v m) = lookupA k2 m := by
  have hne : ¬(k = k2) := fun he => h he.symm
  induction m with
  | nil => simp [insertA, lookupA, hne]
  | cons kv t ih =>
    obtain ⟨k3, v3⟩ := kv
    by_cases hk : k3 = k
    · subst hk
      simp [insertA, lookupA, hne]
    · simp [insertA, lookupA, hk, ih]

/-- C6: trust-on-first-use.  Starting from a cache with no entry for `id`,
the first call inserts the SHA-256 hex fingerprint of the PEM with both
timestamps equal to now and persists; a second call with the same PEM
succeeds and only refreshes `last_seen` (other entries untouched); a call
with a PEM whose fingerprint differs fails with a fingerprint mismatch and
leaves the cache — in memory and on disk — completely unchanged. -/
theorem c6_tofu (st : TrustCacheSt) (id P P2 : Str) (a a2 a3 : Option Str)
    (now now2 now3 : Nat)
    (hnone : lookupA id st.peers = none)
    (hdiff : TrustCache.fingerprint P2 ≠ TrustCache.fingerprint P) :
    ∃ st1,
      TrustCache.verify_or_remember st id P a now = (.ok (), st1)
      ∧ lookupA id st1.peers
          = some (TrustedPeer.mk id (TrustCache.fingerprint P) now now a)
      ∧ st1.disk = st1.peers
      ∧ (∃ st2, TrustCache.verify_or_remember st1 id P a2 now2 = (.ok (), st2)
          ∧ lookupA id st2.peers
              = some (TrustedPeer.mk id (TrustCache.fingerprint P) now now2 a)
          ∧ (∀ k, k ≠ id → lookupA k st2.peers = lookupA k st1.peers)
          ∧ st2.disk = st2.peers)
      ∧ TrustCache.verify_or_remember st1 id P2 a3 now3
          = (.error .fingerprintMismatch, st1) := by
  refine ⟨TrustCacheSt.mk
      (insertA id (TrustedPeer.mk id (TrustCache.fingerprint P) now now a) st.peers)
      (insertA id (TrustedPeer.mk id (TrustCache.fingerprint P) now now a) st.peers),
    ?_, ?_, ?_, ?_, ?_⟩
  · unfold TrustCache.verify_or_remember
    rw [hnone]
    rfl
  · exact lookupA_insertA_self id _ st.peers
  · rfl
  · refine ⟨TrustCacheSt.mk
        (insertA id (TrustedPeer.mk id (TrustCache.fingerprint P) now now2 a)
          (insertA id (TrustedPeer.mk id (TrustCache.fingerprint P) now now a) st.peers))
        (insertA id (TrustedPeer.mk id (TrustCache.fingerprint P) now now2 a)
          (insertA id (TrustedPeer.mk id (TrustCache.fingerprint P) now now a) st.peers)),
      ?_, ?_, ?_, ?_⟩
    · unfold TrustCache.verify_or_remember
      simp only [lookupA_insertA_self]
      simp [TrustCache.save]
    · exact lookupA_insertA_self id _ _
    · intro k hk
      exact lookupA_insertA_ne id k _ _ hk
    · rfl
  · have hcond : (TrustedPeer.mk id (TrustCache.fingerprint P) now now a).fingerprint
        ≠ TrustCache.fingerprint P2 := fun he => hdiff he.symm
    unfold TrustCache.verify_or_remember
    simp only [lookupA_insertA_self]
    rw [if_pos hcond]

/-- Witness for C6: a fresh cache, burrow `ed25519:CCC`, and two distinct
certificate PEMs. -/
theorem c6_tofu_witness :
    ∃ st1,
      TrustCache.verify_or_remember (TrustCacheSt.mk [] [])
          (str "ed25519:CCC") (str "certA") none 5 = (.ok (), st1)
      ∧ lookupA (str "ed25519:CCC") st1.peers
          = some (TrustedPeer.mk (str "ed25519:CCC")
              (TrustCache.fingerprint (str "certA")) 5 5 none)
      ∧ st1.disk = st1.peers
      ∧ (∃ st2, TrustCache.verify_or_remember st1 (str "ed25519:CCC")
            (str "certA") none 9 = (.ok (), st2)
          ∧ lookupA (str "ed25519:CCC") st2.peers
              = some (TrustedPeer.mk (str "ed25519:CCC")
                  (TrustCache.fingerprint (str "certA")) 5 9 none)
          ∧ (∀ k, k ≠ str "ed25519:CCC" →
              lookupA k st2.peers = lookupA k st1.peers)
          ∧ st2.disk = st2.peers)
      ∧ TrustCache.verify_or_remember st1 (str "ed25519:CCC")
          (str "certB") none 11 = (.error .fingerprintMismatch, st1) :=
  c6_tofu (TrustCacheSt.mk [] []) (str "ed25519:CCC") (str "certA") (str "certB")
    none none none 5 9 11 (by decide) (by decide)

/-! The continuity engine, from `src/events/continuity.rs`.  The in-memory
vector for one topic and the topic's log-file content are modelled
explicitly; `chrono` timestamps are `Nat` parameters (the engine only ever
writes non-negative timestamps). -/

/-- Split on a single character, keeping empty pieces (Rust
`str::split(c)`). -/
def splitCh (sep : Char) : Str → List Str
  | [] => [[]]
  | c :: rest =>
    if c = sep then [] :: splitCh sep rest else consHead c (splitCh sep rest)

/-- Remove one trailing carriage return, as Rust `str::lines` does. -/
def stripTrailCR (l : Str) : Str :=
  if l.getLast? = some '\r' then l.dropLast else l

/-- Rust `str::lines`: split on `\n`, drop the final empty piece, strip one
trailing `\r` from each line. -/
def linesOf (s : Str) : List Str :=
  let ps := splitCh '\n' s
  (if ps.getLast? = some [] then ps.dropLast else ps).map stripTrailCR

structure StoredEvent where
  seq : Nat
  timestamp : Nat
  lane : Nat
  topic : Str
  data : Str
deriving DecidableEq, Repr

/-- The tab-separated body of one log line (without the trailing `\n`):
`seq \t timestamp \t lane \t data`. -/
def logLineBody (lane seq : Nat) (body : Str) (now : Nat) : Str :=
  natToStr seq ++ '\t' :: (natToStr now ++ '\t' :: (natToStr lane ++ '\t' :: body))

/-- `ContinuityEngine::append`: push the event onto the in-memory vector
and append one line to the log file. -/
def ContinuityEngine.append (events : List StoredEvent) (file : Str)
    (topic : Str) (lane seq : Nat) (body : Str) (now : Nat) :
    List StoredEvent × Str :=
  (events ++ [StoredEvent.mk seq now lane topic body],
   file ++ (logLineBody lane seq body now ++ ['\n']))

/-- One line of `ContinuityEngine::load_topic`: split on tabs, skip lines
with fewer than four fields, parse the numeric fields with
`unwrap_or(0)`. -/
def ContinuityEngine.parseLogLine (topic : Str) (line : Str) : Option StoredEvent :=
  let parts := splitCh '\t' line
  if parts.length < 4 then none
  else some (StoredEvent.mk
    ((parseUInt 64 (parts.getD 0 [])).getD 0)
    ((parseUInt 63 (parts.getD 1 [])).getD 0)
    ((parseUInt 16 (parts.getD 2 [])).getD 0)
    topic
    (parts.getD 3 []))

/-- `ContinuityEngine::load_topic`: rebuild the in-memory vector from the
log file. -/
def ContinuityEngine.load_topic (file : Str) (topic : Str) : List StoredEvent :=
  (linesOf file).filterMap (ContinuityEngine.parseLogLine topic)

/-- The `EVENT` frame built by `ContinuityEngine::replay` for one stored
event. -/
def ContinuityEngine.mkEventFrame (topic : Str) (e : StoredEvent) : Frame :=
  let f := (((Frame.new (str "EVENT")).set_header (str "Lane")
    (natToStr e.lane)).set_header (str "Seq") (natToStr e.seq)).set_header
    (str "Selector") topic
  { f with body := some e.data }

/-- `ContinuityEngine::replay`: all events with `seq > since` (all events
when `since` is `None`), in stored order. -/
def ContinuityEngine.replay (events : List StoredEvent) (topic : Str)
    (since : Option Nat) : List Frame :=
  (events.filter (fun e =>
    match since with
    | some s => decide (s < e.seq)
    | none => true)).map (ContinuityEngine.mkEventFrame topic)

/-- The numeric values of the `Seq` headers of a list of frames. -/
def frameSeqs (fs : List Frame) : List Nat :=
  fs.map (fun g => ((g.header (str "Seq")).bind (parseUInt 64)).getD 0)

/-- Claim C7 as stated, at one engine state and lower bound. -/
def c7ClaimAt (events : List StoredEvent) (topic : Str) (s : Nat) : Prop :=
  List.Chain' (· < ·) (frameSeqs (ContinuityEngine.replay events topic (some s)))
  ∧ ∀ x ∈ frameSeqs (ContinuityEngine.replay events topic (some s)), s < x

/-- C7 counterexample: sequence numbers are caller-supplied and the engine
does not sort or validate them, so appending seq 5 and then seq 3 makes
`replay(topic, Some(0))` return frames whose `Seq` headers are 5 then 3 —
not strictly increasing. -/
theorem c7_replay_counterexample :
    ¬ c7ClaimAt
      ((ContinuityEngine.append
        (ContinuityEngine.append [] [] (str "t") 2 5 (str "a") 0).1
        (ContinuityEngine.append [] [] (str "t") 2 5 (str "a") 0).2
        (str "t") 2 3 (str "b") 1).1)
      (str "t") 0 := by
  intro h
  have h1 := h.1
  have hseqs : frameSeqs (ContinuityEngine.replay
      ((ContinuityEngine.append
        (ContinuityEngine.append [] [] (str "t") 2 5 (str "a") 0).1
        (ContinuityEngine.append [] [] (str "t") 2 5 (str "a") 0).2
        (str "t") 2 3 (str "b") 1).1)
      (str "t") (some 0)) = [5, 3] := by decide
  rw [hseqs] at h1
  have := List.chain'_cons.mp h1
  omega

theorem frameSeqs_map_mk (topic : Str) (l : List StoredEvent)
    (hb : ∀ e ∈ l, e.seq < 2 ^ 64) :
    frameSeqs (l.map (ContinuityEngine.mkEventFrame topic)) = l.map StoredEvent.seq := by
  induction l with
  | nil => rfl
  | cons e t ih =>
    have hval : (((ContinuityEngine.mkEventFrame topic e).header (str "Seq")).bind
        (parseUInt 64)).getD 0 = e.seq := by
      have hhdr : (ContinuityEngine.mkEventFrame topic e).header (str "Seq")
          = some (natToStr e.seq) := rfl
      rw [hhdr]
      simp [parseUInt_natToStr 64 e.seq (hb e (by simp))]
    have ih2 := ih (fun e2 h2 => hb e2 (by simp [h2]))
    simp only [frameSeqs, List.map_cons] at ih2 ⊢
    rw [hval, ih2]

/-- C7 (amended): provided the appended sequence numbers are strictly
increasing (they are caller-supplied and unvalidated by the engine) and fit
in a u64, `replay(topic, Some(s))` returns `EVENT` frames whose `Seq`
headers are strictly increasing and all strictly greater than `s`;
`replay(topic, None)` returns all stored events in order; and every
replayed frame carries `Lane`, `Seq` and `Selector = topic` headers and a
body equal to the stored data. -/
theorem c7_replay_amended (events : List StoredEvent) (topic : Str) (s : Nat)
    (hmono : List.Chain' (· < ·) (events.map StoredEvent.seq))
    (hbound : ∀ e ∈ events, e.seq < 2 ^ 64) :
    List.Chain' (· < ·) (frameSeqs (ContinuityEngine.replay events topic (some s)))
    ∧ (∀ x ∈ frameSeqs (ContinuityEngine.replay events topic (some s)), s < x)
    ∧ (∀ e ∈ events,
        (ContinuityEngine.mkEventFrame topic e).verb = str "EVENT"
        ∧ (ContinuityEngine.mkEventFrame topic e).header (str "Lane")
            = some (natToStr e.lane)
        ∧ (ContinuityEngine.mkEventFrame topic e).header (str "Seq")
            = some (natToStr e.seq)
        ∧ (ContinuityEngine.mkEventFrame topic e).header (str "Selector")
            = some topic
        ∧ (ContinuityEngine.mkEventFrame topic e).body = some e.data)
    ∧ ContinuityEngine.replay events topic none
        = events.map (ContinuityEngine.mkEventFrame topic) := by
  have hseqs : frameSeqs (ContinuityEngine.replay events topic (some s))
      = (events.filter (fun e => decide (s < e.seq))).map StoredEvent.seq := by
    unfold ContinuityEngine.replay
    exact frameSeqs_map_mk topic _
      (fun e he => hbound e (List.mem_of_mem_filter he))
  refine ⟨?_, ?_, ?_, ?_⟩
  · rw [hseqs]
    exact hmono.sublist ((List.filter_sublist events).map StoredEvent.seq)
  · intro x hx
    rw [hseqs] at hx
    obtain ⟨e, he, rfl⟩ := List.mem_map.mp hx
    have := (List.mem_filter.mp he).2
    simpa using this
  · intro e _
    exact ⟨rfl, rfl, rfl, rfl, rfl⟩
  · unfold ContinuityEngine.replay
    rw [List.filter_true]

/-- Witness for C7 (amended) at two appended events with seqs 1 and 3 and
lower bound 1. -/
theorem c7_replay_amended_witness :
    List.Chain' (· < ·) (frameSeqs (ContinuityEngine.replay
        [StoredEvent.mk 1 0 2 (str "q") (str "a"),
         StoredEvent.mk 3 1 2 (str "q") (str "b")] (str "q") (some 1)))
    ∧ (∀ x ∈ frameSeqs (ContinuityEngine.replay
        [StoredEvent.mk 1 0 2 (str "q") (str "a"),
         StoredEvent.mk 3 1 2 (str "q") (str "b")] (str "q") (some 1)), 1 < x)
    ∧ (∀ e ∈ [StoredEvent.mk 1 0 2 (str "q") (str "a"),
         StoredEvent.mk 3 1 2 (str "q") (str "b")],
        (ContinuityEngine.mkEventFrame (str "q") e).verb = str "EVENT"
        ∧ (ContinuityEngine.mkEventFrame (str "q") e).header (str "Lane")
            = some (natToStr e.lane)
        ∧ (ContinuityEngine.mkEventFrame (str "q") e).header (str "Seq")
            = some (natToStr e.seq)
        ∧ (ContinuityEngine.mkEventFrame (str "q") e).header (str "Selector")
            = some (str "q")
        ∧ (ContinuityEngine.mkEventFrame (str "q") e).body = some e.data)
    ∧ ContinuityEngine.replay
        [StoredEvent.mk 1 0 2 (str "q") (str "a"),
         StoredEvent.mk 3 1 2 (str "q") (str "b")] (str "q") none
      = [StoredEvent.mk 1 0 2 (str "q") (str "a"),
         StoredEvent.mk 3 1 2 (str "q") (str "b")].map
          (ContinuityEngine.mkEventFrame (str "q")) :=
  c7_replay_amended
    [StoredEvent.mk 1 0 2 (str "q") (str "a"),
     StoredEvent.mk 3 1 2 (str "q") (str "b")] (str "q") 1
    (List.chain'_cons.mpr ⟨by norm_num, List.chain'_singleton 3⟩) (by decide)

/-- C8 counterexample: the log line format is tab-separated, and
`load_topic` takes only the fourth tab-separated field as the data, so an
event whose data contains a tab does not survive the write/reload cycle. -/
theorem c8_persistence_counterexample :
    ContinuityEngine.load_topic
        (ContinuityEngine.append [] [] (str "t") 2 1 (str "a\tb") 0).2 (str "t")
      ≠ (ContinuityEngine.append [] [] (str "t") 2 1 (str "a\tb") 0).1 := by
  decide

theorem splitCh_cons_sep (sep : Char) (rest : Str) :
    splitCh sep (sep :: rest) = [] :: splitCh sep rest := by
  rw [splitCh, if_pos rfl]

theorem splitCh_cons_ne (sep c : Char) (rest : Str) (h : c ≠ sep) :
    splitCh sep (c :: rest) = consHead c (splitCh sep rest) := by
  rw [splitCh, if_neg h]

theorem splitCh_sep_append (sep : Char) (a r : Str) (ha : ∀ x ∈ a, x ≠ sep) :
    splitCh sep (a ++ sep :: r) = a :: splitCh sep r := by
  induction a with
  | nil => simpa using splitCh_cons_sep sep r
  | cons c a2 ih =>
    rw [List.cons_append, splitCh_cons_ne sep c _ (ha c (by simp)),
      ih (fun x hx => ha x (by simp [hx])), consHead_cons]

theorem splitCh_no_sep (sep : Char) (a : Str) (ha : ∀ x ∈ a, x ≠ sep) :
    splitCh sep a = [a] := by
  induction a with
  | nil => rfl
  | cons c a2 ih =>
    rw [splitCh_cons_ne sep c _ (ha c (by simp)),
      ih (fun x hx => ha x (by simp [hx])), consHead_cons]

theorem splitCh_join_lines (sep : Char) (ls : List Str)
    (h : ∀ l ∈ ls, ∀ x ∈ l, x ≠ sep) :
    splitCh sep ((ls.map (fun l => l ++ [sep])).join) = ls ++ [[]] := by
  induction ls with
  | nil => rfl
  | cons l rest ih =>
    have key : (List.map (fun l2 => l2 ++ [sep]) (l :: rest)).join
        = l ++ sep :: (rest.map (fun l2 => l2 ++ [sep])).join := by
      simp
    rw [key, splitCh_sep_append sep l _ (h l (by simp)),
      ih (fun l2 h2 => h l2 (by simp [h2]))]
    rfl

theorem linesOf_join (ls : List Str) (h : ∀ l ∈ ls, ∀ x ∈ l, x ≠ '\n') :
    linesOf ((ls.map (fun l => l ++ ['\n'])).join) = ls.map stripTrailCR := by
  unfold linesOf
  rw [splitCh_join_lines '\n' ls h]
  have hlast : (ls ++ [[]]).getLast? = some ([] : Str) := by
    simp [List.getLast?_append]
  simp [hlast, List.dropLast_concat]

theorem stripTrailCR_id (l : Str) (h : l.getLast? ≠ some '\r') :
    stripTrailCR l = l := by
  rw [stripTrailCR, if_neg h]

/-- One append of claim C8: lane, sequence number, timestamp and data. -/
structure AppendIn where
  lane : Nat
  seq : Nat
  now : Nat
  data : Str
deriving DecidableEq, Repr

/-- Apply a sequence of `ContinuityEngine::append` calls to one topic. -/
def runAppendsFrom (topic : Str) (st : List StoredEvent × Str) :
    List AppendIn → List StoredEvent × Str
  | [] => st
  | i :: is =>
    runAppendsFrom topic
      (ContinuityEngine.append st.1 st.2 topic i.lane i.seq i.data i.now) is

theorem runAppendsFrom_spec (topic : Str) (ins : List AppendIn) :
    ∀ evs file, runAppendsFrom topic (evs, file) ins
      = (evs ++ ins.map (fun i => StoredEvent.mk i.seq i.now i.lane topic i.data),
         file ++ (ins.map (fun i =>
           logLineBody i.lane i.seq i.data i.now ++ ['\n'])).join) := by
  induction ins with
  | nil => intro evs file; simp [runAppendsFrom]
  | cons i is ih =>
    intro evs file
    rw [runAppendsFrom]
    rw [show ContinuityEngine.append evs file topic i.lane i.seq i.data i.now
      = (evs ++ [StoredEvent.mk i.seq i.now i.lane topic i.data],
         file ++ (logLineBody i.lane i.seq i.data i.now ++ ['\n'])) from rfl]
    rw [ih]
    simp

theorem natToStr_ne_ch (n : Nat) (c : Char) (hc : c.isDigit = false) :
    ∀ x ∈ natToStr n, x ≠ c := by
  intro x hx he
  subst he
  rw [natToStr_all_digits n x hx] at hc
  exact Bool.noConfusion hc

theorem getLast?_append_right {α : Type} (a b : List α) (hb : b ≠ []) :
    (a ++ b).getLast? = b.getLast? := by
  induction a with
  | nil => rfl
  | cons c a2 ih =>
    rw [List.cons_append]
    cases h2 : a2 ++ b with
    | nil =>
      rcases List.append_eq_nil.mp h2 with ⟨_, hb2⟩
      exact absurd hb2 hb
    | cons x xs =>
      rw [List.getLast?_cons_cons, ← h2, ih]

theorem getLast?_cons_ne_nil {α : Type} (c : α) (l : List α) (h : l ≠ []) :
    (c :: l).getLast? = l.getLast? := by
  cases l with
  | nil => exact absurd rfl h
  | cons x xs => rw [List.getLast?_cons_cons]

theorem logLineBody_last_ne_cr (lane seq now : Nat) (d : Str)
    (hcr : d.getLast? ≠ some '\r') :
    (logLineBody lane seq d now).getLast? ≠ some '\r' := by
  unfold logLineBody
  rw [getLast?_append_right _ _ (by simp)]
  rw [getLast?_cons_ne_nil _ _ (by simp)]
  rw [getLast?_append_right _ _ (by simp)]
  rw [getLast?_cons_ne_nil _ _ (by simp)]
  rw [getLast?_append_right _ _ (by simp)]
  cases hd : d with
  | nil =>
    intro hcontra
    simp at hcontra
  | cons x xs =>
    rw [getLast?_cons_ne_nil _ _ (by simp)]
    rw [← hd]
    exact hcr

theorem logLineBody_no_nl (lane seq now : Nat) (d : Str) (hd : '\n' ∉ d) :
    ∀ x ∈ logLineBody lane seq d now, x ≠ '\n' := by
  intro x hx he
  subst he
  unfold logLineBody at hx
  simp only [List.mem_append, List.mem_cons] at hx
  rcases hx with h1 | h2 | h3 | h4 | h5 | h6
  · exact natToStr_ne_ch seq '\n' rfl '\n' h1 rfl
  · exact absurd h2 (by decide)
  · exact natToStr_ne_ch now '\n' rfl '\n' h3 rfl
  · exact absurd h4 (by decide)
  · exact natToStr_ne_ch lane '\n' rfl '\n' h5 rfl
  · rcases h6 with h7 | h8
    · exact absurd h7 (by decide)
    · exact hd h8

theorem parseLogLine_roundtrip (topic : Str) (i : AppendIn)
    (ht : '\t' ∉ i.data) (hseq : i.seq < 2 ^ 64) (hnow : i.now < 2 ^ 63)
    (hlane : i.lane < 2 ^ 16) :
    ContinuityEngine.parseLogLine topic (logLineBody i.lane i.seq i.data i.now)
      = some (StoredEvent.mk i.seq i.now i.lane topic i.data) := by
  have hsplit : splitCh '\t' (logLineBody i.lane i.seq i.data i.now)
      = [natToStr i.seq, natToStr i.now, natToStr i.lane, i.data] := by
    unfold logLineBody
    rw [splitCh_sep_append '\t' _ _ (natToStr_ne_ch i.seq '\t' rfl),
      splitCh_sep_append '\t' _ _ (natToStr_ne_ch i.now '\t' rfl),
      splitCh_sep_append '\t' _ _ (natToStr_ne_ch i.lane '\t' rfl),
      splitCh_no_sep '\t' i.data (fun x hx he => ht (he ▸ hx))]
  unfold ContinuityEngine.parseLogLine
  rw [hsplit]
  simp [List.getD, parseUInt_natToStr 64 i.seq hseq,
    parseUInt_natToStr 63 i.now hnow, parseUInt_natToStr 16 i.lane hlane]

theorem map_eq_self_of_mem {α : Type} (f : α → α) (l : List α)
    (h : ∀ a ∈ l, f a = a) : l.map f = l := by
  induction l with
  | nil => rfl
  | cons c t ih =>
    rw [List.map_cons, h c (by simp), ih (fun a ha => h a (by simp [ha]))]

theorem load_lines_roundtrip (topic : Str) (ins : List AppendIn)
    (h : ∀ i ∈ ins,
      '\t' ∉ i.data ∧ i.seq < 2 ^ 64 ∧ i.now < 2 ^ 63 ∧ i.lane < 2 ^ 16) :
    List.filterMap (ContinuityEngine.parseLogLine topic)
      (ins.map (fun i => logLineBody i.lane i.seq i.data i.now))
    = ins.map (fun i => StoredEvent.mk i.seq i.now i.lane topic i.data) := by
  induction ins with
  | nil => rfl
  | cons i is ih =>
    obtain ⟨ht, hs, hw, hl⟩ := h i (by simp)
    rw [List.map_cons, List.filterMap_cons,
      parseLogLine_roundtrip topic i ht hs hw hl, List.map_cons,
      ih (fun i2 h2 => h i2 (by simp [h2]))]

/-- C8 (amended): writing a sequence of events and re-loading the topic
yields exactly the in-memory state, provided each event's data contains no
tab and no newline and does not end in a carriage return (the log lines are
tab-separated and newline-terminated, and Rust `lines` strips a trailing
`\r`), with the numeric fields within their machine widths; and saving then
re-loading the trust cache yields the same peer map (the serde JSON codec
is modelled as a faithful encoding of the map). -/
theorem c8_persistence_amended (topic : Str) (ins : List AppendIn)
    (hgood : ∀ i ∈ ins,
      ('\t' ∉ i.data ∧ '\n' ∉ i.data ∧ i.data.getLast? ≠ some '\r')
      ∧ i.seq < 2 ^ 64 ∧ i.now < 2 ^ 63 ∧ i.lane < 2 ^ 16) :
    ContinuityEngine.load_topic (runAppendsFrom topic ([], []) ins).2 topic
      = (runAppendsFrom topic ([], []) ins).1
    ∧ ∀ tst : TrustCacheSt,
        (TrustCache.load (TrustCache.save tst)).peers = tst.peers := by
  refine ⟨?_, fun tst => rfl⟩
  rw [runAppendsFrom_spec]
  simp only [List.nil_append]
  have hjoin : ins.map (fun i => logLineBody i.lane i.seq i.data i.now ++ ['\n'])
      = (ins.map (fun i => logLineBody i.lane i.seq i.data i.now)).map
          (fun l => l ++ ['\n']) := by
    rw [List.map_map]
    rfl
  unfold ContinuityEngine.load_topic
  rw [hjoin, linesOf_join _ (by
    intro l hl
    obtain ⟨i, hi, rfl⟩ := List.mem_map.mp hl
    exact logLineBody_no_nl i.lane i.seq i.now i.data ((hgood i hi).1.2.1))]
  have hstrip : (ins.map (fun i => logLineBody i.lane i.seq i.data i.now)).map
      stripTrailCR = ins.map (fun i => logLineBody i.lane i.seq i.data i.now) :=
    map_eq_self_of_mem _ _ (fun l hl => by
      obtain ⟨i, hi, rfl⟩ := List.mem_map.mp hl
      exact stripTrailCR_id _
        (logLineBody_last_ne_cr i.lane i.seq i.now i.data ((hgood i hi).1.2.2)))
  rw [hstrip,
    load_lines_roundtrip topic ins (fun i hi =>
      ⟨(hgood i hi).1.1, (hgood i hi).2.1, (hgood i hi).2.2.1, (hgood i hi).2.2.2⟩)]

/-- Witness for C8 (amended) at two appended events. -/
theorem c8_persistence_amended_witness :
    ContinuityEngine.load_topic
        (runAppendsFrom (str "q/news") ([], [])
          [AppendIn.mk 2 1 0 (str "a"), AppendIn.mk 2 2 1 (str "b")]).2 (str "q/news")
      = (runAppendsFrom (str "q/news") ([], [])
          [AppendIn.mk 2 1 0 (str "a"), AppendIn.mk 2 2 1 (str "b")]).1
    ∧ ∀ tst : TrustCacheSt,
        (TrustCache.load (TrustCache.save tst)).peers = tst.peers :=
  c8_persistence_amended (str "q/news")
    [AppendIn.mk 2 1 0 (str "a"), AppendIn.mk 2 2 1 (str "b")] (by decide)

/-! Sessions and the authenticator, from `src/security/identity.rs` and
`src/security/auth.rs`.  The freshly generated UUID v4 token and the
current time are parameters. -/

structure Session where
  peer_id : Str
  token : Str
  issued_at : Nat
  expires_at : Nat
  is_anonymous : Bool
deriving DecidableEq, Repr

/-- The session store of the identity manager. -/
abbrev Sessions := List (Str × Session)

/-- `IdentityManager::create_session`: register a session for the given
peer (or "anonymous") expiring in one hour, and return the token. -/
def IdentityManager.create_session (sessions : Sessions) (peer_id : Option Str)
    (is_anonymous : Bool) (token : Str) (now : Nat) : Str × Sessions :=
  (token, insertA token
    (Session.mk (peer_id.getD (str "anonymous")) token now (now + 3600)
      is_anonymous) sessions)

/-- `IdentityManager::validate_token`: a token is valid while unexpired. -/
def IdentityManager.validate_token (sessions : Sessions) (token : Str)
    (now : Nat) : Bool :=
  match lookupA token sessions with
  | some sess => decide (now < sess.expires_at)
  | none => false

/-- `Authenticator::process_hello`: require `Scheme: RABBIT-SECURE-1`
(missing or different schemes fail), default the subject to "anonymous",
issue a session and reply `200 HELLO` with the token and the local burrow
id. -/
def Authenticator.process_hello (frame : Frame) (sessions : Sessions)
    (localId token : Str) (now : Nat) : Except RErr (Frame × Sessions) :=
  match frame.header (str "Scheme") with
  | none => .error .missingScheme
  | some scheme =>
    if scheme ≠ str "RABBIT-SECURE-1" then .error .unsupportedScheme
    else
      let peer_id := (frame.header (str "Burrow-ID")).getD (str "anonymous")
      let r := IdentityManager.create_session sessions (some peer_id)
        (decide (peer_id = str "anonymous")) token now
      let reply := ((Frame.new (str "200 HELLO")).set_header
        (str "Session-Token") r.1).set_header (str "Burrow-ID") localId
      .ok ({ reply with body := some (str "Welcome to Rabbit\r\n") }, r.2)

/-- C9: `process_hello` succeeds exactly when the frame carries
`Scheme: RABBIT-SECURE-1` (failing with a scheme error otherwise); on
success the subject is the `Burrow-ID` header or "anonymous" when absent, a
session for that subject is issued under the fresh token, and the reply has
verb `200 HELLO` with headers `Session-Token` (the new token) and
`Burrow-ID` (the responder's local id). -/
theorem c9_process_hello (frame : Frame) (sessions : Sessions)
    (localId token : Str) (now : Nat) :
    ((Authenticator.process_hello frame sessions localId token now).isOk = true
      ↔ frame.header (str "Scheme") = some (str "RABBIT-SECURE-1"))
    ∧ (frame.header (str "Scheme") = some (str "RABBIT-SECURE-1") →
       ∃ reply sessions2,
         Authenticator.process_hello frame sessions localId token now
           = .ok (reply, sessions2)
         ∧ reply.verb = str "200 HELLO"
         ∧ reply.header (str "Session-Token") = some token
         ∧ reply.header (str "Burrow-ID") = some localId
         ∧ sessions2 = insertA token
             (Session.mk ((frame.header (str "Burrow-ID")).getD (str "anonymous"))
               token now (now + 3600)
               (decide ((frame.header (str "Burrow-ID")).getD (str "anonymous")
                 = str "anonymous"))) sessions) := by
  constructor
  · unfold Authenticator.process_hello
    cases hs : frame.header (str "Scheme") with
    | none => simp [Except.isOk, Except.toBool]
    | some scheme =>
      by_cases he : scheme = str "RABBIT-SECURE-1"
      · subst he
        simp [Except.isOk, Except.toBool]
      · simp [he, Except.isOk, Except.toBool]
  · intro hs
    have heq : Authenticator.process_hello frame sessions localId token now
        = .ok (Frame.mk (str "200 HELLO") []
            [(str "Session-Token", token), (str "Burrow-ID", localId)]
            (some (str "Welcome to Rabbit\r\n")),
          insertA token
            (Session.mk ((frame.header (str "Burrow-ID")).getD (str "anonymous"))
              token now (now + 3600)
              (decide ((frame.header (str "Burrow-ID")).getD (str "anonymous")
                = str "anonymous"))) sessions) := by
      unfold Authenticator.process_hello
      rw [hs]
      simp [IdentityManager.create_session]
      exact ⟨rfl, rfl, rfl⟩
    exact ⟨_, _, heq, rfl, rfl, rfl, rfl⟩

/-- Witness for C9 at a concrete HELLO frame carrying a Burrow-ID. -/
theorem c9_process_hello_witness :
    ((Authenticator.process_hello
        (Frame.mk (str "HELLO") []
          [(str "Scheme", str "RABBIT-SECURE-1"), (str "Burrow-ID", str "ed25519:AAA")]
          none) [] (str "ed25519:LOCAL") (str "tok-1") 50).isOk = true
      ↔ (Frame.mk (str "HELLO") []
          [(str "Scheme", str "RABBIT-SECURE-1"), (str "Burrow-ID", str "ed25519:AAA")]
          none).header (str "Scheme") = some (str "RABBIT-SECURE-1"))
    ∧ ((Frame.mk (str "HELLO") []
          [(str "Scheme", str "RABBIT-SECURE-1"), (str "Burrow-ID", str "ed25519:AAA")]
          none).header (str "Scheme") = some (str "RABBIT-SECURE-1") →
       ∃ reply sessions2,
         Authenticator.process_hello
           (Frame.mk (str "HELLO") []
             [(str "Scheme", str "RABBIT-SECURE-1"), (str "Burrow-ID", str "ed25519:AAA")]
             none) [] (str "ed25519:LOCAL") (str "tok-1") 50
           = .ok (reply, sessions2)
         ∧ reply.verb = str "200 HELLO"
         ∧ reply.header (str "Session-Token") = some (str "tok-1")
         ∧ reply.header (str "Burrow-ID") = some (str "ed25519:LOCAL")
         ∧ sessions2 = insertA (str "tok-1")
             (Session.mk (((Frame.mk (str "HELLO") []
                 [(str "Scheme", str "RABBIT-SECURE-1"), (str "Burrow-ID", str "ed25519:AAA")]
                 none).header (str "Burrow-ID")).getD (str "anonymous"))
               (str "tok-1") 50 (50 + 3600)
               (decide (((Frame.mk (str "HELLO") []
                 [(str "Scheme", str "RABBIT-SECURE-1"), (str "Burrow-ID", str "ed25519:AAA")]
                 none).header (str "Burrow-ID")).getD (str "anonymous")
                 = str "anonymous"))) []) :=
  c9_process_hello
    (Frame.mk (str "HELLO") []
      [(str "Scheme", str "RABBIT-SECURE-1"), (str "Burrow-ID", str "ed25519:AAA")]
      none) [] (str "ed25519:LOCAL") (str "tok-1") 50

/-! Capabilities and delegation, from `src/security/permissions.rs` and
`src/security/delegation.rs`.  `TTL` is an `i64`, so times here are `Int`;
`to_lowercase` is modelled at the ASCII level (no recognised capability
name contains a character that a non-ASCII letter lowercases to). -/

inductive Capability : Type
  | Fetch
  | List
  | Publish
  | Subscribe
  | ManageWarren
  | ManageBurrows
  | Federation
  | UIControl
deriving DecidableEq, Repr

structure Grant where
  subject : Str
  caps : List Capability
  issued_at : Int
  expires_at : Int
deriving DecidableEq, Repr

/-- The grant store of the capability manager. -/
abbrev Grants := List (Str × Grant)

/-- Two's-complement wrap onto the `i64` range `[-2 ^ 63, 2 ^ 63)`
(release-build overflow semantics; a debug build would panic instead). -/
def wrapI64 (x : Int) : Int := (x + 2 ^ 63) % 2 ^ 64 - 2 ^ 63

/-- `CapabilityManager::grant`: overwrite any existing grant for the
subject.  `expires_at` is the `i64` sum `now + ttl_secs`, which wraps on
overflow in a release build. -/
def CapabilityManager.grant (grants : Grants) (subject : Str)
    (caps : List Capability) (ttl_secs now : Int) : Grants :=
  insertA subject (Grant.mk subject caps now (wrapI64 (now + ttl_secs))) grants

/-- `CapabilityManager::allowed`: the subject holds the capability under an
unexpired grant. -/
def CapabilityManager.allowed (grants : Grants) (subject : Str)
    (cap : Capability) (now : Int) : Bool :=
  match lookupA subject grants with
  | some g => decide (now < g.expires_at) && g.caps.contains cap
  | none => false

/-- `CapabilityManager::revoke`. -/
def CapabilityManager.revoke (grants : Grants) (subject : Str) : Grants :=
  removeA subject grants

/-- Rust `str::parse::<i64>()`: optional sign, decimal digits, i64 range. -/
def parseI64 (s : Str) : Option Int :=
  match s with
  | '-' :: t =>
    match parseNatCore t with
    | some v => if v ≤ 2 ^ 63 then some (-(v : Int)) else none
    | none => none
  | _ =>
    match parseNatCore (dropPlus s) with
    | some v => if v < 2 ^ 63 then some (v : Int) else none
    | none => none

/-- The per-token recogniser of `DelegationManager::handle_delegate`:
trim, lowercase, and map known capability names; unknown tokens are
dropped. -/
def parseCapToken (s : Str) : Option Capability :=
  let t := (trimStr s).map Char.toLower
  if t = str "fetch" then some .Fetch
  else if t = str "list" then some .List
  else if t = str "publish" then some .Publish
  else if t = str "subscribe" then some .Subscribe
  else if t = str "manage_warren" then some .ManageWarren
  else if t = str "manage_burrows" then some .ManageBurrows
  else if t = str "federation" then some .Federation
  else if t = str "ui" then some .UIControl
  else none

/-- `DelegationManager::handle_delegate`: require `Burrow-ID` and `Caps`,
parse `TTL` (default 600), grant the recognised capabilities (replacing any
existing grant) and reply `200 DELEGATED`. -/
def DelegationManager.handle_delegate (frame : Frame) (grants : Grants)
    (now : Int) : Except RErr (Frame × Grants) :=
  match frame.header (str "Burrow-ID") with
  | none => .error .missingField
  | some subject =>
    match frame.header (str "Caps") with
    | none => .error .missingField
    | some caps_str =>
      let ttl := ((frame.header (str "TTL")).bind parseI64).getD 600
      let caps := (splitCh ',' caps_str).filterMap parseCapToken
      let grants2 := CapabilityManager.grant grants subject caps ttl now
      let reply := (Frame.new (str "200 DELEGATED")).set_header
        (str "Burrow-ID") subject
      .ok ({ reply with body := some (str "Delegation successful\r\n") }, grants2)

/-- C10: a `DELEGATE` frame carrying both `Burrow-ID` and `Caps` always
succeeds with reply `200 DELEGATED`, and it replaces the subject's entire
existing grant by exactly the recognised capability tokens of the `Caps`
list — in particular a `Caps` list with only unrecognised tokens installs
an empty capability set, silently revoking every capability the subject
previously held.  The stored expiry is the wrapping `i64` sum of `now` and
the `TTL` header (default 600). -/
theorem c10_delegate (frame : Frame) (grants : Grants) (now : Int)
    (subject capsStr : Str)
    (hsub : frame.header (str "Burrow-ID") = some subject)
    (hcaps : frame.header (str "Caps") = some capsStr) :
    ∃ reply grants2,
      DelegationManager.handle_delegate frame grants now = .ok (reply, grants2)
      ∧ reply.verb = str "200 DELEGATED"
      ∧ reply.header (str "Burrow-ID") = some subject
      ∧ lookupA subject grants2
          = some (Grant.mk subject ((splitCh ',' capsStr).filterMap parseCapToken)
              now (wrapI64 (now + ((frame.header (str "TTL")).bind parseI64).getD 600)))
      ∧ (∀ c : Capability,
          c ∈ (splitCh ',' capsStr).filterMap parseCapToken
          ↔ ∃ tok ∈ splitCh ',' capsStr, parseCapToken tok = some c)
      ∧ ((∀ tok ∈ splitCh ',' capsStr, parseCapToken tok = none) →
          (splitCh ',' capsStr).filterMap parseCapToken = []) := by
  have heq : DelegationManager.handle_delegate frame grants now
      = .ok (Frame.mk (str "200 DELEGATED") [] [(str "Burrow-ID", subject)]
          (some (str "Delegation successful\r\n")),
        CapabilityManager.grant grants subject
          ((splitCh ',' capsStr).filterMap parseCapToken)
          (((frame.header (str "TTL")).bind parseI64).getD 600) now) := by
    unfold DelegationManager.handle_delegate
    rw [hsub, hcaps]
    rfl
  refine ⟨_, _, heq, rfl, rfl, ?_, ?_, ?_⟩
  · exact lookupA_insertA_self subject _ grants
  · intro c
    simpa using List.mem_filterMap
  · intro hall
    rw [List.filterMap_eq_nil]
    exact hall

/-- Witness for C10: a DELEGATE frame whose `Caps` list contains only
unrecognised tokens, applied over a store where the subject already holds
`Fetch`. -/
theorem c10_delegate_witness :
    ∃ reply grants2,
      DelegationManager.handle_delegate
          (Frame.mk (str "DELEGATE") []
            [(str "Burrow-ID", str "ed25519:BBB"), (str "Caps", str "bogus,nothing")]
            none)
          [(str "ed25519:BBB", Grant.mk (str "ed25519:BBB") [Capability.Fetch] 0 1000)]
          7
        = .ok (reply, grants2)
      ∧ reply.verb = str "200 DELEGATED"
      ∧ reply.header (str "Burrow-ID") = some (str "ed25519:BBB")
      ∧ lookupA (str "ed25519:BBB") grants2
          = some (Grant.mk (str "ed25519:BBB")
              ((splitCh ',' (str "bogus,nothing")).filterMap parseCapToken) 7
              (wrapI64 (7 + (((Frame.mk (str "DELEGATE") []
                [(str "Burrow-ID", str "ed25519:BBB"), (str "Caps", str "bogus,nothing")]
                none).header (str "TTL")).bind parseI64).getD 600)))
      ∧ (∀ c : Capability,
          c ∈ (splitCh ',' (str "bogus,nothing")).filterMap parseCapToken
          ↔ ∃ tok ∈ splitCh ',' (str "bogus,nothing"), parseCapToken tok = some c)
      ∧ ((∀ tok ∈ splitCh ',' (str "bogus,nothing"), parseCapToken tok = none) →
          (splitCh ',' (str "bogus,nothing")).filterMap parseCapToken = []) :=
  c10_delegate
    (Frame.mk (str "DELEGATE") []
      [(str "Burrow-ID", str "ed25519:BBB"), (str "Caps", str "bogus,nothing")]
      none)
    [(str "ed25519:BBB", Grant.mk (str "ed25519:BBB") [Capability.Fetch] 0 1000)]
    7 (str "ed25519:BBB") (str "bogus,nothing") (by decide) (by decide)
